import Mathlib

/-!
# GammaRay probe: the live object registry (`probe.cpp`)

A shallow embedding of `Gammaray::Probe` — the object registry, its
construction completion queue, the self-exclusion filter and the hook entry
points — and of the stream operators for touch points of
`common/remoteviewinterface.cpp`, followed by the properties proved about them.

Conventions of the embedding
* A `QObject*` is its address, a natural number; a nullable pointer is an
  `Option`.  The host application's object graph (`obj->parent()`,
  `obj->thread()`, `QThread::currentThread()`) is not owned by the probe: each
  call is given the `Host` in which it runs, so the wiring may differ from one
  call to the next.
* Calls made into the models and the signals emitted are appended to
  `Process.emitted`, in order.
* A failed `Q_ASSERT` aborts the process: `Process.aborted` is set and every
  later call leaves the process as it is.  The recursion of `descendantOf` is
  bounded by `Host.stack`; exhausting it is a crash as well.
* `m_lock` is not modelled: calls are executed one after the other.  The
  assertion `Q_ASSERT(!m_lock.tryLockForRead())` is therefore omitted.
* Where the code runs with an existing probe, `qApp` and the global statics
  `s_listener` and `s_addedBeforeProbeInsertion` exist, so `Probe::instance()`
  inside `filterObject` returns the existing instance.
* The containers are lists: `m_validObjects` (a `QSet`) is only inserted into
  when the object is absent and `QSet::remove` removes every occurrence;
  `m_queuedObjects` (a `QVector`) keeps insertion order and `removeOne` removes
  the first occurrence.
-/

namespace Gammaray

/-- Address of a `QObject`. -/
abbrev QObject := Nat

/-- Address of a `QThread`. -/
abbrev QThread := Nat

/-- Address of a normalized signal or slot signature (`const char *`). -/
abbrev CString := Nat

/-- State of the host application that the probe only reads. -/
structure Host where
  /-- The value of `obj->parent()`. -/
  parent : QObject → Option QObject
  /-- The value of `obj->thread()`. -/
  thread : QObject → Option QThread
  /-- The value of `QThread::currentThread()`. -/
  currentThread : Option QThread
  /-- Number of nested `descendantOf` frames the call stack can hold. -/
  stack : Nat

/-- Calls into the downstream models and signals emitted by the probe. -/
inductive Notification where
  /-- Call of `m_objectListModel->objectAdded(obj)`. -/
  | listObjectAdded (obj : QObject)
  /-- Call of `m_objectTreeModel->objectAdded(obj)`. -/
  | treeObjectAdded (obj : QObject)
  /-- Call of `m_toolModel->objectAdded(obj)`. -/
  | toolObjectAdded (obj : QObject)
  /-- Signal `objectCreated(obj)`. -/
  | objectCreated (obj : QObject)
  /-- Call of `m_objectListModel->objectRemoved(obj)`. -/
  | listObjectRemoved (obj : QObject)
  /-- Call of `m_objectTreeModel->objectRemoved(obj)`. -/
  | treeObjectRemoved (obj : QObject)
  /-- Call of `m_connectionModel->connectionAdded(sender, signal, receiver, method, type)`. -/
  | modelConnectionAdded (sender : QObject) (signal : Option CString)
      (receiver : QObject) (method : Option CString) (type : Nat)
  /-- Call of `m_connectionModel->connectionRemoved(sender, signal, receiver, method)`. -/
  | modelConnectionRemoved (sender : Option QObject) (signal : Option CString)
      (receiver : Option QObject) (method : Option CString)
  /-- Signal `objectDestroyed(obj)`. -/
  | objectDestroyed (obj : QObject)
  deriving DecidableEq

/-- The members of a `Probe` instance that the registry logic uses. -/
structure Probe where
  /-- Address of the probe object itself (`this`). -/
  self : QObject
  /-- Member `m_window`. -/
  m_window : Option QObject
  /-- Member `m_validObjects`, a `QSet<QObject*>`. -/
  m_validObjects : List QObject
  /-- Member `m_queuedObjects`, a `QVector<QObject*>`. -/
  m_queuedObjects : List QObject
  /-- Whether `m_queueTimer` is running. -/
  m_queueTimerActive : Bool
  deriving DecidableEq

/-- Process-wide state: the statics of `probe.cpp` and the trace of outgoing calls. -/
structure Process where
  /-- Static `Probe::s_instance`. -/
  s_instance : Option Probe
  /-- Static `s_listener()->filterThread`. -/
  filterThread : Option QThread
  /-- Static `s_addedBeforeProbeInsertion`. -/
  s_addedBeforeProbeInsertion : List QObject
  /-- Outgoing calls and signals so far, oldest first. -/
  emitted : List Notification
  /-- A `Q_ASSERT` failed or the stack overflowed. -/
  aborted : Bool
  deriving DecidableEq

/-- Insertion `QSet::insert` (`set << obj`). -/
def QSet.insert (s : List QObject) (obj : QObject) : List QObject :=
  if obj ∈ s then s else s ++ [obj]

/-- Removal `QSet::remove`: the set without `obj`. -/
def QSet.remove (s : List QObject) (obj : QObject) : List QObject :=
  s.filter (fun x => x != obj)

/-- The state set up by the constructor `Probe::Probe`. -/
def Probe.new (self : QObject) : Probe :=
  { self := self
    m_window := none
    m_validObjects := []
    m_queuedObjects := []
    m_queueTimerActive := false }

/-- Function `Probe::setWindow`. -/
def setWindow (g : Process) (window : Option QObject) : Process :=
  if g.aborted then g else
  match g.s_instance with
  | none => g
  | some p => { g with s_instance := some { p with m_window := window } }

/-- The assignments `s_listener()->filterThread = ...` made by `Probe::instance`
and `Probe::delayedInit` around the construction of the probe and of its window. -/
def setFilterThread (g : Process) (thread : Option QThread) : Process :=
  if g.aborted then g else { g with filterThread := thread }

/-- Function `Probe::isInitialized`. -/
def isInitialized (g : Process) : Bool :=
  g.s_instance.isSome

/-- Function `Probe::isValidObject`. -/
def Probe.isValidObject (p : Probe) (obj : QObject) : Bool :=
  decide (obj ∈ p.m_validObjects)

/-- Function `descendantOf(ascendant, obj)` with the recursion depth bounded by the
first numeric argument; `none` when the bound is exhausted. -/
def descendantOf (h : Host) (ascendant : Option QObject) : Nat → QObject → Option Bool
  | 0, _ => none
  | fuel + 1, obj =>
    match h.parent obj with
    | none => some false
    | some parent =>
      if some parent = ascendant then some true
      else descendantOf h ascendant fuel parent

/-- Function `filterObject(obj)`: whether `obj` belongs to the probe or its window.
`none` when a parent walk exhausts the stack. -/
def filterObject (h : Host) (p : Probe) (obj : QObject) : Option Bool :=
  if h.thread obj ≠ h.thread p.self then some false
  else if obj = p.self then some true
  else if some obj = p.m_window then some true
  else
    match descendantOf h (some p.self) h.stack obj with
    | none => none
    | some true => some true
    | some false => descendantOf h p.m_window h.stack obj

/-- The condition `!obj->parent() || m_validObjects.contains(obj->parent())`. -/
def parentKnown (h : Host) (p : Probe) (obj : QObject) : Bool :=
  match h.parent obj with
  | none => true
  | some parent => decide (parent ∈ p.m_validObjects)

/-- The condition `obj->parent() && m_queuedObjects.contains(obj->parent())`. -/
def parentQueued (h : Host) (p : Probe) (obj : QObject) : Bool :=
  match h.parent obj with
  | none => false
  | some parent => decide (parent ∈ p.m_queuedObjects)

/-- The four calls at the end of `Probe::objectFullyConstructed`. -/
def addedNotifications (obj : QObject) : List Notification :=
  [.listObjectAdded obj, .treeObjectAdded obj, .toolObjectAdded obj, .objectCreated obj]

/-- Function `Probe::objectFullyConstructed`. -/
def objectFullyConstructed (h : Host) (g : Process) (obj : QObject) : Process :=
  if g.aborted then g else
  match g.s_instance with
  | none => g
  | some p =>
    if obj ∉ p.m_validObjects then g
    else
      match filterObject h p obj with
      | none => { g with aborted := true }
      | some true =>
        { g with s_instance := some { p with m_validObjects := QSet.remove p.m_validObjects obj } }
      | some false =>
        if parentKnown h p obj then
          { g with emitted := g.emitted ++ addedNotifications obj }
        else { g with aborted := true }

/-- Function `Probe::objectAdded`. -/
def objectAdded (h : Host) (g : Process) (obj : QObject) (fromCtor : Bool) : Process :=
  if g.aborted then g else
  if g.filterThread = h.thread obj then g
  else
    match g.s_instance with
    | none =>
      { g with s_addedBeforeProbeInsertion := g.s_addedBeforeProbeInsertion ++ [obj] }
    | some p =>
      match filterObject h p obj with
      | none => { g with aborted := true }
      | some true => g
      | some false =>
        if obj ∈ p.m_validObjects then
          (if fromCtor then g else { g with aborted := true })
        else if !parentKnown h p obj then { g with aborted := true }
        else
          let valid := QSet.insert p.m_validObjects obj
          if fromCtor || parentQueued h p obj then
            if obj ∈ p.m_queuedObjects then
              { g with s_instance := some { p with m_validObjects := valid }, aborted := true }
            else
              { g with s_instance := some { p with
                  m_validObjects := valid
                  m_queuedObjects := p.m_queuedObjects ++ [obj]
                  m_queueTimerActive := true } }
          else
            objectFullyConstructed h
              { g with s_instance := some { p with m_validObjects := valid } } obj

/-- Function `Probe::queuedObjectsFullyConstructed`. -/
def queuedObjectsFullyConstructed (h : Host) (g : Process) : Process :=
  if g.aborted then g else
  match g.s_instance with
  | none => g
  | some p =>
    if h.currentThread ≠ h.thread p.self then { g with aborted := true }
    else if p.m_queuedObjects.length ≠ p.m_queuedObjects.dedup.length then
      { g with aborted := true }
    else
      let g1 := p.m_queuedObjects.foldl (objectFullyConstructed h) g
      if g1.aborted then g1 else
      match g1.s_instance with
      | none => g1
      | some p1 => { g1 with s_instance := some { p1 with m_queuedObjects := [] } }

/-- The single-shot `m_queueTimer` fires: it becomes inactive and its
`timeout()` runs the connected slot `queuedObjectsFullyConstructed`. -/
def queueTimerTimeout (h : Host) (g : Process) : Process :=
  if g.aborted then g else
  match g.s_instance with
  | none => g
  | some p =>
    queuedObjectsFullyConstructed h
      { g with s_instance := some { p with m_queueTimerActive := false } }

/-- Function `Probe::connectionRemoved`. -/
def connectionRemoved (h : Host) (g : Process) (sender : Option QObject)
    (signal : Option CString) (receiver : Option QObject) (method : Option CString) :
    Process :=
  if g.aborted then g else
  match g.s_instance with
  | none => g
  | some p =>
    if g.filterThread = h.currentThread then g
    else
      match (match sender with
             | none => some false
             | some s => filterObject h p s) with
      | none => { g with aborted := true }
      | some true => g
      | some false =>
        match (match receiver with
               | none => some false
               | some r => filterObject h p r) with
        | none => { g with aborted := true }
        | some true => g
        | some false =>
          { g with emitted :=
              g.emitted ++ [.modelConnectionRemoved sender signal receiver method] }

/-- Function `Probe::connectionAdded`. -/
def connectionAdded (h : Host) (g : Process) (sender : Option QObject)
    (signal : Option CString) (receiver : Option QObject) (method : Option CString)
    (type : Nat) : Process :=
  if g.aborted then g else
  match g.s_instance, sender, receiver with
  | some p, some s, some r =>
    if g.filterThread = h.currentThread then g
    else
      match filterObject h p s with
      | none => { g with aborted := true }
      | some true => g
      | some false =>
        match filterObject h p r with
        | none => { g with aborted := true }
        | some true => g
        | some false =>
          { g with emitted := g.emitted ++ [.modelConnectionAdded s signal r method type] }
  | _, _, _ => g

/-- Function `Probe::objectRemoved`. -/
def objectRemoved (h : Host) (g : Process) (obj : QObject) : Process :=
  if g.aborted then g else
  match g.s_instance with
  | some p =>
    if obj ∉ p.m_validObjects then g
    else
      let queued := p.m_queuedObjects.erase obj
      let g1 : Process :=
        { g with
          s_instance := some { p with
            m_validObjects := QSet.remove p.m_validObjects obj
            m_queuedObjects := queued
            m_queueTimerActive := if queued.isEmpty then false else p.m_queueTimerActive }
          emitted := g.emitted ++ [.listObjectRemoved obj, .treeObjectRemoved obj] }
      let g2 := connectionRemoved h g1 (some obj) none none none
      let g3 := connectionRemoved h g2 none none (some obj) none
      if g3.aborted then g3
      else { g3 with emitted := g3.emitted ++ [.objectDestroyed obj] }
  | none =>
    { g with s_addedBeforeProbeInsertion :=
        g.s_addedBeforeProbeInsertion.filter (fun x => x != obj) }

/-- Modelled from the spec: the default value of the parameter `fromCtor` of
`Probe::objectAdded`, declared in `probe.h`.  A child-relationship notification
reaches `add` with `fromConstruction` false and is deferred only through its
queued parent. -/
def objectAddedDefaultFromCtor : Bool := false

/-- Function `Probe::eventFilter` for a `QChildEvent` sent to `receiver` about `child`;
`added` is `childEvent->added()`. -/
def eventFilter (h : Host) (g : Process) (receiver child : QObject) (added : Bool) :
    Process :=
  if g.aborted then g else
  match g.s_instance with
  | none => g
  | some p =>
    if g.filterThread = h.thread receiver then g
    else
      let tracked := decide (child ∈ p.m_validObjects)
      match filterObject h p child with
      | none => { g with aborted := true }
      | some filtered =>
        if !filtered && added then
          if !parentKnown h p child then { g with aborted := true }
          else if !tracked then objectAdded h g child objectAddedDefaultFromCtor
          else if child ∉ p.m_queuedObjects then
            { g with emitted := g.emitted ++ [.treeObjectRemoved child, .treeObjectAdded child] }
          else g
        else if tracked then objectRemoved h g child
        else g

/-- The calls that drive the registry. -/
inductive Op where
  /-- The hook `Probe::objectAdded(obj, fromCtor)`. -/
  | add (obj : QObject) (fromCtor : Bool)
  /-- The hook `Probe::objectRemoved(obj)`. -/
  | remove (obj : QObject)
  /-- The queue timer fires and the queue is drained. -/
  | drain
  /-- A child event passes through `Probe::eventFilter`. -/
  | childEvent (receiver child : QObject) (added : Bool)
  /-- Function `Probe::setWindow(window)`. -/
  | setWindow (window : Option QObject)
  /-- The listener marker `s_listener()->filterThread` is set or cleared. -/
  | setFilterThread (thread : Option QThread)
  deriving DecidableEq

/-- One call, made while the host is in state `h`. -/
def step (h : Host) (g : Process) : Op → Process
  | .add obj fromCtor => objectAdded h g obj fromCtor
  | .remove obj => objectRemoved h g obj
  | .drain => queueTimerTimeout h g
  | .childEvent receiver child added => eventFilter h g receiver child added
  | .setWindow window => setWindow g window
  | .setFilterThread thread => setFilterThread g thread

/-- A sequence of calls, each with the host state in which it is made. -/
def run (g : Process) : List (Host × Op) → Process
  | [] => g
  | (h, op) :: rest => run (step h g op) rest

/-- A process in which `Probe::Probe` has just run and nothing has been emitted. -/
def Process.initial (self : QObject) (filterThread : Option QThread)
    (buffer : List QObject) : Process :=
  { s_instance := some (Probe.new self)
    filterThread := filterThread
    s_addedBeforeProbeInsertion := buffer
    emitted := []
    aborted := false }

/-- States of an initialized registry: those reached from a newly constructed
probe by a sequence of calls. -/
def Reachable (g : Process) : Prop :=
  ∃ self filterThread buffer calls, g = run (Process.initial self filterThread buffer) calls

/-- The `n`-th object on the parent chain of `obj`: `obj` itself for `n = 0`, its
parent for `n = 1`, and so on; `none` once the chain has ended. -/
def nthAncestor (h : Host) : Nat → QObject → Option QObject
  | 0, obj => some obj
  | n + 1, obj => (h.parent obj).bind (nthAncestor h n)

/-- Strict descendant, as the specification words it: some proper ancestor on
the parent chain of `obj` is the (non-null) object `ascendant`. -/
def StrictDescendant (h : Host) (ascendant : Option QObject) (obj : QObject) : Prop :=
  ∃ a k, ascendant = some a ∧ nthAncestor h (k + 1) obj = some a

/-- The object that an "added" notification reports: the three model calls
`objectAdded(obj)` and the signal `objectCreated(obj)`. -/
def Notification.addedObject : Notification → Option QObject
  | .listObjectAdded obj => some obj
  | .treeObjectAdded obj => some obj
  | .toolObjectAdded obj => some obj
  | .objectCreated obj => some obj
  | _ => none

/-- Whether the notification names the object `x` in any of its arguments. -/
def Notification.mentions (n : Notification) (x : QObject) : Bool :=
  match n with
  | .listObjectAdded obj => obj == x
  | .treeObjectAdded obj => obj == x
  | .toolObjectAdded obj => obj == x
  | .objectCreated obj => obj == x
  | .listObjectRemoved obj => obj == x
  | .treeObjectRemoved obj => obj == x
  | .modelConnectionAdded sender _ receiver _ _ => sender == x || receiver == x
  | .modelConnectionRemoved sender _ receiver _ => sender == some x || receiver == some x
  | .objectDestroyed obj => obj == x

/-- The calls that `Probe::objectRemoved` makes for a tracked object, when
both cascading `connectionRemoved` calls are forwarded. -/
def removedNotifications (obj : QObject) : List Notification :=
  [.listObjectRemoved obj, .treeObjectRemoved obj,
   .modelConnectionRemoved (some obj) none none none,
   .modelConnectionRemoved none none (some obj) none,
   .objectDestroyed obj]

/-- The registry members of a probe after `Probe::objectRemoved` has erased
a tracked object. -/
def Probe.erased (p : Probe) (obj : QObject) : Probe :=
  { p with
    m_validObjects := QSet.remove p.m_validObjects obj
    m_queuedObjects := p.m_queuedObjects.erase obj
    m_queueTimerActive :=
      if (p.m_queuedObjects.erase obj).isEmpty then false else p.m_queueTimerActive }

/-- What is left of `m_validObjects` once the completion step has run for the
objects `l`: those of `l` that the filter now excludes are evicted. -/
def drainValid (h : Host) (p : Probe) (l : List QObject) : List QObject :=
  p.m_validObjects.filter (fun x => !(decide (x ∈ l) && (filterObject h p x == some true)))

/-- The notifications of the completion step run for the objects `l`, in order:
those of `l` that are valid and not excluded are reported. -/
def drainEmitted (h : Host) (p : Probe) (l : List QObject) : List Notification :=
  (l.filter (fun o => decide (o ∈ p.m_validObjects) && (filterObject h p o == some false))).flatMap
    addedNotifications

/-- An upper bound on what one call can emit when the registry members are
`p` and the host is in state `h`: the notifications of the call form a
sub-sequence of this list. -/
def mayEmit (h : Host) (p : Probe) : Op → List Notification
  | .add obj fromCtor =>
    if fromCtor || parentQueued h p obj then []
    else if filterObject h p obj = some false ∧ obj ∉ p.m_validObjects then
      addedNotifications obj
    else []
  | .remove obj => if obj ∈ p.m_validObjects then removedNotifications obj else []
  | .drain => drainEmitted h p p.m_queuedObjects
  | .childEvent _ child added =>
    if filterObject h p child = some false ∧ added = true then
      if child ∈ p.m_validObjects then
        if child ∈ p.m_queuedObjects then []
        else [.treeObjectRemoved child, .treeObjectAdded child]
      else if parentQueued h p child then []
      else addedNotifications child
    else if child ∈ p.m_validObjects then removedNotifications child
    else []
  | .setWindow _ => []
  | .setFilterThread _ => []

/-- The object `obj` is excluded by the filter at every call of the sequence,
in the state in which the call is made. -/
def excludedThroughout (obj : QObject) : Process → List (Host × Op) → Bool
  | _, [] => true
  | g, (h, op) :: rest =>
    (match g.s_instance with
      | none => true
      | some p => filterObject h p obj == some true) &&
      excludedThroughout obj (step h g op) rest

/-- The registry invariants of a probe: every queued object is valid, neither
container holds an object twice, and the queue timer runs exactly while the
queue is non-empty. -/
structure Probe.Consistent (p : Probe) : Prop where
  queued_valid : ∀ o ∈ p.m_queuedObjects, o ∈ p.m_validObjects
  queued_nodup : p.m_queuedObjects.Nodup
  valid_nodup : p.m_validObjects.Nodup
  timer : p.m_queueTimerActive = true ↔ p.m_queuedObjects ≠ []

/-- The registry invariants hold in every process that has not aborted. -/
def Process.Consistent (g : Process) : Prop :=
  g.aborted = false → ∀ p, g.s_instance = some p → p.Consistent

/-- Function `Probe::~Probe`: the destructor clears `s_instance`. -/
def Probe.destroy (g : Process) : Process :=
  if g.aborted then g else { g with s_instance := none }

/-- Function `Probe::instance`.  `qApp` tells whether the application object
exists and `self` is the address at which `new Probe` places the probe.  While
the constructor runs the listener marker is the calling thread, so the hook
calls for the objects the constructor creates on that thread are ignored by
`objectAdded`; the marker is cleared before the buffered objects are replayed.
`moveToThread` and the queued call of `delayedInit` act on the host and its
event loop and leave the state of the process as it is. -/
def probeInstance (h : Host) (g : Process) (qApp : Bool) (self : QObject) : Process :=
  if g.aborted then g else
  if !qApp then g else
  match g.s_instance with
  | some _ => g
  | none =>
    let g1 : Process := { g with filterThread := h.currentThread }
    let g2 : Process := { g1 with s_instance := some (Probe.new self) }
    let g3 : Process := { g2 with filterThread := none }
    let g4 := g.s_addedBeforeProbeInsertion.foldl
      (fun acc obj => objectAdded h acc obj objectAddedDefaultFromCtor) g3
    if g4.aborted then g4 else { g4 with s_addedBeforeProbeInsertion := [] }

/-- The buffered objects that the replay of `Probe::instance` makes valid in a
new probe at address `self`: those that have a thread and that the filter does
not exclude. -/
def replayed (h : Host) (self : QObject) (buffer : List QObject) : List QObject :=
  buffer.filter (fun o => decide (h.thread o ≠ none) &&
    (filterObject h (Probe.new self) o == some false))

/-! ### Touch points on a data stream (`common/remoteviewinterface.cpp`)

`QDataStream`, `QTouchEvent::TouchPoint` and the value classes are Qt's.  A
stream is the sequence of values written to it: writing appends a value, reading
takes the first one.  A touch point is the record of the values that the stream
operators read through its getters, and each setter stores the value that the
getter of the same name returns.  The operators are taken as compiled against
Qt 5 or later, where velocity, flags and raw screen positions are streamed too. -/

/-- A `qreal`, represented by its bit pattern. -/
abbrev qreal := Nat

/-- The class `QPointF`. -/
structure QPointF where
  xp : qreal
  yp : qreal
  deriving DecidableEq

/-- The class `QRectF`. -/
structure QRectF where
  xp : qreal
  yp : qreal
  w : qreal
  h : qreal
  deriving DecidableEq

/-- The class `QVector2D`; the coordinates are the bit patterns of two floats. -/
structure QVector2D where
  xp : Nat
  yp : Nat
  deriving DecidableEq

/-- One value on a `QDataStream`, tagged with the type it was written as. -/
inductive StreamItem where
  /-- An `int` (`qint32`). -/
  | int32 (v : Int)
  /-- A `qreal`. -/
  | real (v : qreal)
  /-- A `QPointF`. -/
  | pointF (v : QPointF)
  /-- A `QRectF`. -/
  | rectF (v : QRectF)
  /-- A `QVector2D`. -/
  | vector2D (v : QVector2D)
  /-- A `QVector<QPointF>`. -/
  | pointFVector (v : List QPointF)
  deriving DecidableEq

/-- A `QDataStream`: the values written and not yet read, oldest first. -/
abbrev QDataStream := List StreamItem

/-- The values of a `QTouchEvent::TouchPoint` that the stream operators use. -/
structure TouchPoint where
  id : Int
  state : Int
  rect : QRectF
  sceneRect : QRectF
  screenRect : QRectF
  normalizedPos : QPointF
  startPos : QPointF
  startScenePos : QPointF
  startScreenPos : QPointF
  startNormalizedPos : QPointF
  lastPos : QPointF
  lastScenePos : QPointF
  lastScreenPos : QPointF
  lastNormalizedPos : QPointF
  pressure : qreal
  velocity : QVector2D
  flags : Int
  rawScreenPositions : List QPointF
  deriving DecidableEq

/-- The local `QTouchEvent::TouchPoint p;` of `operator>>`: Qt's default
constructor gives the id `-1`. -/
def TouchPoint.default : TouchPoint :=
  { id := -1, state := 0
    rect := ⟨0, 0, 0, 0⟩, sceneRect := ⟨0, 0, 0, 0⟩, screenRect := ⟨0, 0, 0, 0⟩
    normalizedPos := ⟨0, 0⟩
    startPos := ⟨0, 0⟩, startScenePos := ⟨0, 0⟩, startScreenPos := ⟨0, 0⟩
    startNormalizedPos := ⟨0, 0⟩
    lastPos := ⟨0, 0⟩, lastScenePos := ⟨0, 0⟩, lastScreenPos := ⟨0, 0⟩
    lastNormalizedPos := ⟨0, 0⟩
    pressure := 0, velocity := ⟨0, 0⟩, flags := 0, rawScreenPositions := [] }

/-- Reading an `int`: `s >> i`.  A read that does not find a value of its type
yields zero and leaves the stream, as a read past the end of a `QDataStream`
does. -/
def readInt32 : QDataStream → Int × QDataStream
  | .int32 v :: rest => (v, rest)
  | s => (0, s)

/-- Reading a `qreal`. -/
def readReal : QDataStream → qreal × QDataStream
  | .real v :: rest => (v, rest)
  | s => (0, s)

/-- Reading a `QPointF`. -/
def readPointF : QDataStream → QPointF × QDataStream
  | .pointF v :: rest => (v, rest)
  | s => (⟨0, 0⟩, s)

/-- Reading a `QRectF`. -/
def readRectF : QDataStream → QRectF × QDataStream
  | .rectF v :: rest => (v, rest)
  | s => (⟨0, 0, 0, 0⟩, s)

/-- Reading a `QVector2D`. -/
def readVector2D : QDataStream → QVector2D × QDataStream
  | .vector2D v :: rest => (v, rest)
  | s => (⟨0, 0⟩, s)

/-- Reading a `QVector<QPointF>`. -/
def readPointFVector : QDataStream → List QPointF × QDataStream
  | .pointFVector v :: rest => (v, rest)
  | s => ([], s)

/-- The operators `operator<<` for `Qt::TouchPointStates` and for
`QTouchEvent::TouchPoint::InfoFlags`: the value travels as an `int`. -/
def writeFlags (s : QDataStream) (flags : Int) : QDataStream :=
  s ++ [.int32 flags]

/-- Reading `Qt::TouchPointStates` or `InfoFlags`: an `int` is read and converted. -/
def readFlags (s : QDataStream) : Int × QDataStream :=
  readInt32 s

/-- The template `setPointValue`: reads a value of the setter's parameter type
and passes it to the setter. -/
def setPointValue {T : Type} (read : QDataStream → T × QDataStream)
    (func : T → TouchPoint → TouchPoint) (s : QDataStream) (p : TouchPoint) :
    QDataStream × TouchPoint :=
  ((read s).2, func (read s).1 p)

/-- The body of the `foreach` loop of `operator<<` for a list of touch points. -/
def writeTouchPoint (s : QDataStream) (p : TouchPoint) : QDataStream :=
  let s := s ++ [.int32 p.id]
  let s := writeFlags s p.state
  let s := s ++ [.rectF p.rect] ++ [.rectF p.sceneRect] ++ [.rectF p.screenRect]
  let s := s ++ [.pointF p.normalizedPos]
  let s := s ++ [.pointF p.startPos] ++ [.pointF p.startScenePos] ++ [.pointF p.startScreenPos]
    ++ [.pointF p.startNormalizedPos]
  let s := s ++ [.pointF p.lastPos] ++ [.pointF p.lastScenePos] ++ [.pointF p.lastScreenPos]
    ++ [.pointF p.lastNormalizedPos]
  let s := s ++ [.real p.pressure]
  let s := s ++ [.vector2D p.velocity]
  let s := writeFlags s p.flags
  s ++ [.pointFVector p.rawScreenPositions]

/-- The operator `operator<<(QDataStream &, const QList<QTouchEvent::TouchPoint> &)`:
the count, an `int`, then every point. -/
def writeTouchPoints (s : QDataStream) (points : List TouchPoint) : QDataStream :=
  points.foldl writeTouchPoint (s ++ [.int32 (Int.ofNat points.length)])

/-- The body of the `for` loop of `operator>>` for a list of touch points. -/
def readTouchPoint (s : QDataStream) : QDataStream × TouchPoint :=
  let p := TouchPoint.default
  let (s, p) := setPointValue readInt32 (fun v p => { p with id := v }) s p
  let (s, p) := setPointValue readFlags (fun v p => { p with state := v }) s p
  let (s, p) := setPointValue readRectF (fun v p => { p with rect := v }) s p
  let (s, p) := setPointValue readRectF (fun v p => { p with sceneRect := v }) s p
  let (s, p) := setPointValue readRectF (fun v p => { p with screenRect := v }) s p
  let (s, p) := setPointValue readPointF (fun v p => { p with normalizedPos := v }) s p
  let (s, p) := setPointValue readPointF (fun v p => { p with startPos := v }) s p
  let (s, p) := setPointValue readPointF (fun v p => { p with startScenePos := v }) s p
  let (s, p) := setPointValue readPointF (fun v p => { p with startScreenPos := v }) s p
  let (s, p) := setPointValue readPointF (fun v p => { p with startNormalizedPos := v }) s p
  let (s, p) := setPointValue readPointF (fun v p => { p with lastPos := v }) s p
  let (s, p) := setPointValue readPointF (fun v p => { p with lastScenePos := v }) s p
  let (s, p) := setPointValue readPointF (fun v p => { p with lastScreenPos := v }) s p
  let (s, p) := setPointValue readPointF (fun v p => { p with lastNormalizedPos := v }) s p
  let (s, p) := setPointValue readReal (fun v p => { p with pressure := v }) s p
  let (s, p) := setPointValue readVector2D (fun v p => { p with velocity := v }) s p
  let (s, p) := setPointValue readFlags (fun v p => { p with flags := v }) s p
  let (s, p) := setPointValue readPointFVector (fun v p => { p with rawScreenPositions := v }) s p
  (s, p)

/-- The `for` loop of `operator>>`, with the number of iterations left. -/
def readTouchPointsLoop : Nat → QDataStream → List TouchPoint → QDataStream × List TouchPoint
  | 0, s, points => (s, points)
  | n + 1, s, points =>
    readTouchPointsLoop n (readTouchPoint s).1 (points ++ [(readTouchPoint s).2])

/-- The operator `operator>>(QDataStream &, QList<QTouchEvent::TouchPoint> &)`: the
loop `for (int i = 0; i < count; ++i)` runs `count` times, and not at all for a
count that is not positive. -/
def readTouchPoints (s : QDataStream) (points : List TouchPoint) :
    QDataStream × List TouchPoint :=
  readTouchPointsLoop (readInt32 s).1.toNat (readInt32 s).2 points

/-- A sample host: object 2 is a child of object 1, every other object has no
parent; all objects, the probe included, live on thread 7, which is also the
calling thread. -/
def sampleHost : Host :=
  { parent := fun o => if o = 2 then some 1 else none
    thread := fun _ => some 7
    currentThread := some 7
    stack := 8 }

/-- A sample host in which object 1 has become a child of the probe object 100;
all objects live on thread 7, which is also the calling thread. -/
def adoptedHost : Host :=
  { parent := fun o => if o = 1 then some 100 else none
    thread := fun _ => some 7
    currentThread := some 7
    stack := 8 }

/-- A sample host in which object 9 is a child of the probe object 100, and
object 2 a child of object 1; all objects live on thread 7, which is also the
calling thread. -/
def toolHost : Host :=
  { parent := fun o => if o = 9 then some 100 else if o = 2 then some 1 else none
    thread := fun _ => some 7
    currentThread := some 7
    stack := 8 }

/-- A sample host before a reparenting: object 3 is a child of object 1 and
object 4 a child of object 3; objects 1 and 2 have no parent.  All objects live
on thread 7, which is also the calling thread. -/
def hostBeforeReparent : Host :=
  { parent := fun o => if o = 3 then some 1 else if o = 4 then some 3 else none
    thread := fun _ => some 7
    currentThread := some 7
    stack := 8 }

/-- The host of `hostBeforeReparent` after `setParent` has moved object 3 from
object 1 to object 2. -/
def hostAfterReparent : Host :=
  { parent := fun o => if o = 3 then some 2 else if o = 4 then some 3 else none
    thread := fun _ => some 7
    currentThread := some 7
    stack := 8 }

/-- A new probe at address 100 after `objectAdded(1, true)` in `sampleHost`:
object 1 is valid and queued. -/
def sampleQueued : Process :=
  run (Process.initial 100 none []) [(sampleHost, .add 1 true)]

/-- A new probe at address 100 after `objectAdded(1, false)` in `sampleHost`:
object 1 is valid and has been reported. -/
def sampleTracked : Process :=
  run (Process.initial 100 none []) [(sampleHost, .add 1 false)]

/-- A sample host in which the probe object 100 lives on thread 7, every other
object on thread 8, and the calling thread is thread 7; no object has a parent. -/
def workerHost : Host :=
  { parent := fun _ => none
    thread := fun o => if o = 100 then some 7 else some 8
    currentThread := some 7
    stack := 8 }

/-- The host of `sampleHost` with the call made from thread 9. -/
def otherCallerHost : Host :=
  { sampleHost with currentThread := some 9 }

/-- A process in which no probe exists, nothing is buffered and the listener
marker is clear. -/
def sampleUninitialized : Process :=
  { s_instance := none
    filterThread := none
    s_addedBeforeProbeInsertion := []
    emitted := []
    aborted := false }

/-- A process in which no probe exists yet and objects 1 and 2 have been
buffered, in this order. -/
def sampleBuffered : Process :=
  { s_instance := none
    filterThread := none
    s_addedBeforeProbeInsertion := [1, 2]
    emitted := []
    aborted := false }

/-- A sample touch point. -/
def sampleTouchPoint : TouchPoint :=
  { id := 3, state := 2
    rect := ⟨1, 2, 3, 4⟩, sceneRect := ⟨5, 6, 7, 8⟩, screenRect := ⟨9, 10, 11, 12⟩
    normalizedPos := ⟨13, 14⟩
    startPos := ⟨15, 16⟩, startScenePos := ⟨17, 18⟩, startScreenPos := ⟨19, 20⟩
    startNormalizedPos := ⟨21, 22⟩
    lastPos := ⟨23, 24⟩, lastScenePos := ⟨25, 26⟩, lastScreenPos := ⟨27, 28⟩
    lastNormalizedPos := ⟨29, 30⟩
    pressure := 31, velocity := ⟨32, 33⟩, flags := 1, rawScreenPositions := [⟨34, 35⟩] }

end Gammaray

namespace Gammaray

/-! ## The self-exclusion filter -/

theorem nthAncestor_succ_of_parent {h : Host} {obj q : QObject} (hq : h.parent obj = some q)
    (n : Nat) : nthAncestor h (n + 1) obj = nthAncestor h n q := by
  simp [nthAncestor, hq]

theorem nthAncestor_succ_of_root {h : Host} {obj : QObject} (hq : h.parent obj = none)
    (n : Nat) : nthAncestor h (n + 1) obj = none := by
  simp [nthAncestor, hq]

/-- On a parent chain that ends within `n` steps, `descendantOf` with at least
`n` stack frames returns, and it returns `true` exactly for strict descendants. -/
theorem descendantOf_spec (h : Host) (asc : Option QObject) :
    ∀ (n fuel : Nat) (obj : QObject), nthAncestor h n obj = none → n ≤ fuel →
      ∃ b, descendantOf h asc fuel obj = some b ∧ (b = true ↔ StrictDescendant h asc obj) := by
  intro n
  induction n with
  | zero => intro fuel obj hn; simp [nthAncestor] at hn
  | succ n ih =>
    intro fuel obj hn hfuel
    obtain ⟨f, rfl⟩ : ∃ f, fuel = f + 1 := ⟨fuel - 1, by omega⟩
    cases hq : h.parent obj with
    | none =>
      refine ⟨false, by simp [descendantOf, hq], ?_⟩
      constructor
      · intro hb; cases hb
      · rintro ⟨a, k, -, hk⟩
        rw [nthAncestor_succ_of_root hq] at hk
        cases hk
    | some q =>
      rw [nthAncestor_succ_of_parent hq] at hn
      by_cases hqa : some q = asc
      · subst hqa
        refine ⟨true, by simp [descendantOf, hq], ?_⟩
        constructor
        · intro _
          exact ⟨q, 0, rfl, by simp [nthAncestor, hq]⟩
        · intro _; rfl
      · obtain ⟨b, hb, hiff⟩ := ih f q hn (by omega)
        refine ⟨b, by simp [descendantOf, hq, hqa, hb], ?_⟩
        rw [hiff]
        constructor
        · rintro ⟨a, k, ha, hk⟩
          exact ⟨a, k + 1, ha, by rw [nthAncestor_succ_of_parent hq]; exact hk⟩
        · rintro ⟨a, k, ha, hk⟩
          rw [nthAncestor_succ_of_parent hq] at hk
          cases k with
          | zero =>
            simp only [nthAncestor] at hk
            exact absurd (by rw [ha, ← hk]) hqa
          | succ k => exact ⟨a, k, ha, hk⟩

/-- The parent chain composes: the `(m + k)`-th ancestor is the `k`-th ancestor of the `m`-th. -/
theorem nthAncestor_add (h : Host) :
    ∀ (m k : Nat) (obj : QObject),
      nthAncestor h (m + k) obj = (nthAncestor h m obj).bind (nthAncestor h k) := by
  intro m
  induction m with
  | zero => intro k obj; simp [nthAncestor]
  | succ m ih =>
    intro k obj
    have : m + 1 + k = (m + k) + 1 := by omega
    rw [this]
    cases hq : h.parent obj with
    | none => simp [nthAncestor, hq]
    | some q => simp [nthAncestor, hq, ih]

/-- An object that is its own proper ancestor has an endless parent chain. -/
theorem nthAncestor_cycle (h : Host) (obj : QObject) (k : Nat)
    (hk : nthAncestor h (k + 1) obj = some obj) :
    ∀ j, nthAncestor h (j * (k + 1)) obj = some obj := by
  intro j
  induction j with
  | zero => simp [nthAncestor]
  | succ j ih =>
    have : (j + 1) * (k + 1) = j * (k + 1) + (k + 1) := by ring
    rw [this, nthAncestor_add, ih]
    simpa using hk

/-- Once the chain has ended it stays ended. -/
theorem nthAncestor_none_mono (h : Host) :
    ∀ (n m : Nat) (obj : QObject), nthAncestor h n obj = none → n ≤ m →
      nthAncestor h m obj = none := by
  intro n m obj hn hnm
  obtain ⟨d, rfl⟩ : ∃ d, m = n + d := ⟨m - n, by omega⟩
  rw [nthAncestor_add, hn]
  rfl

theorem not_strictDescendant_self (h : Host) (obj : QObject) (n : Nat)
    (hn : nthAncestor h n obj = none) : ¬ StrictDescendant h (some obj) obj := by
  rintro ⟨a, k, ha, hk⟩
  cases ha
  have h1 := nthAncestor_cycle h obj k hk n
  have h2 := nthAncestor_none_mono h n (n * (k + 1)) obj hn (by nlinarith)
  rw [h2] at h1
  cases h1

theorem not_strictDescendant_null (h : Host) (obj : QObject) :
    ¬ StrictDescendant h none obj := by
  rintro ⟨a, k, ha, -⟩
  cases ha

/-! ## Frame properties of the individual calls -/

@[simp] theorem connectionRemoved_s_instance (h : Host) (g : Process) (s : Option QObject)
    (sig : Option CString) (r : Option QObject) (m : Option CString) :
    (connectionRemoved h g s sig r m).s_instance = g.s_instance := by
  unfold connectionRemoved
  repeat' split
  all_goals rfl

theorem QSet.mem_remove {s : List QObject} {x obj : QObject} :
    x ∈ QSet.remove s obj ↔ x ∈ s ∧ x ≠ obj := by
  simp [QSet.remove]

theorem QSet.remove_nodup {s : List QObject} (hs : s.Nodup) (obj : QObject) :
    (QSet.remove s obj).Nodup := by
  unfold QSet.remove
  exact hs.filter _

theorem QSet.insert_of_not_mem {s : List QObject} {obj : QObject} (ho : obj ∉ s) :
    QSet.insert s obj = s ++ [obj] := by
  simp [QSet.insert, ho]

theorem nodup_snoc {l : List QObject} {a : QObject} (hl : l.Nodup) (ha : a ∉ l) :
    (l ++ [a]).Nodup := by
  rw [List.nodup_append]
  refine ⟨hl, List.nodup_singleton _, ?_⟩
  intro b hb hb'
  simp only [List.mem_singleton] at hb'
  subst hb'
  exact ha hb

theorem objectFullyConstructed_consistent_of_not_filtered (h : Host) (g : Process)
    (obj : QObject) (p : Probe) (hp : g.s_instance = some p)
    (hf : filterObject h p obj = some false) (hc : g.Consistent) :
    (objectFullyConstructed h g obj).Consistent := by
  unfold objectFullyConstructed
  split
  · exact hc
  · simp only [hp]
    split
    · exact hc
    · simp only [hf]
      split
      · intro ha q hq
        simp only [Option.some.injEq] at hq
        subst hq
        exact hc (by simpa using ha) p hp
      · intro ha; simp at ha

theorem objectAdded_consistent (h : Host) (g : Process) (obj : QObject) (fromCtor : Bool)
    (hc : g.Consistent) : (objectAdded h g obj fromCtor).Consistent := by
  unfold objectAdded
  split
  · exact hc
  rename_i hab
  split
  · exact hc
  split
  · intro _ p hp; simp_all
  rename_i p hp
  have hpc : p.Consistent := hc (by simpa using hab) p hp
  split
  · intro ha; simp at ha
  · exact hc
  rename_i hf
  split
  · split
    · exact hc
    · intro ha; simp at ha
  rename_i hv
  split
  · intro ha; simp at ha
  split
  · split
    · intro ha; simp at ha
    · rename_i hq
      intro _ q hq'
      simp only [Option.some.injEq] at hq'
      subst hq'
      rw [QSet.insert_of_not_mem hv]
      refine ⟨?_, ?_, ?_, ?_⟩
      · intro o ho
        simp only [List.mem_append, List.mem_singleton] at ho ⊢
        rcases ho with ho | ho
        · exact Or.inl (hpc.queued_valid o ho)
        · exact Or.inr ho
      · exact nodup_snoc hpc.queued_nodup hq
      · exact nodup_snoc hpc.valid_nodup hv
      · simp
  · apply objectFullyConstructed_consistent_of_not_filtered h _ obj
      { p with m_validObjects := QSet.insert p.m_validObjects obj } rfl (by simpa [filterObject] using hf)
    intro _ q hq'
    simp only [Option.some.injEq] at hq'
    subst hq'
    rw [QSet.insert_of_not_mem hv]
    refine ⟨?_, hpc.queued_nodup, ?_, hpc.timer⟩
    · intro o ho
      simp only [List.mem_append, List.mem_singleton]
      exact Or.inl (hpc.queued_valid o ho)
    · exact nodup_snoc hpc.valid_nodup hv

theorem objectFullyConstructed_of_aborted (h : Host) (g : Process) (obj : QObject)
    (ha : g.aborted = true) : objectFullyConstructed h g obj = g := by
  simp [objectFullyConstructed, ha]

theorem foldl_objectFullyConstructed_of_aborted (h : Host) (l : List QObject) (g : Process)
    (ha : g.aborted = true) : l.foldl (objectFullyConstructed h) g = g := by
  induction l with
  | nil => rfl
  | cons a t ih => rw [List.foldl_cons, objectFullyConstructed_of_aborted h g a ha, ih]

@[simp] theorem filterObject_valid_update (h : Host) (p : Probe) (v : List QObject)
    (obj : QObject) :
    filterObject h { p with m_validObjects := v } obj = filterObject h p obj := rfl

@[simp] theorem filterObject_members (h : Host) (p : Probe) (v q : List QObject) (t : Bool)
    (obj : QObject) :
    filterObject h
      { self := p.self, m_window := p.m_window, m_validObjects := v, m_queuedObjects := q,
        m_queueTimerActive := t } obj = filterObject h p obj := rfl

theorem drainValid_nil (h : Host) (p : Probe) : drainValid h p [] = p.m_validObjects := by
  simp [drainValid]

theorem drainEmitted_nil (h : Host) (p : Probe) : drainEmitted h p [] = [] := by
  simp [drainEmitted]

theorem drainValid_cons_skip (h : Host) (p : Probe) (a : QObject) (l : List QObject)
    (ha : a ∉ p.m_validObjects ∨ filterObject h p a = some false) :
    drainValid h p (a :: l) = drainValid h p l := by
  unfold drainValid
  apply List.filter_congr
  intro x hx
  by_cases hxa : x = a
  · subst hxa
    rcases ha with ha | ha
    · exact absurd hx ha
    · simp [ha]
  · simp [hxa]

theorem drainValid_cons_evict (h : Host) (p : Probe) (a : QObject) (l : List QObject)
    (ha : filterObject h p a = some true) :
    drainValid h { p with m_validObjects := QSet.remove p.m_validObjects a } l
      = drainValid h p (a :: l) := by
  unfold drainValid QSet.remove
  simp only [filterObject_valid_update]
  rw [List.filter_filter]
  apply List.filter_congr
  intro x _
  by_cases hxa : x = a
  · subst hxa
    simp [ha]
  · simp [hxa]

theorem drainEmitted_cons_skip (h : Host) (p : Probe) (a : QObject) (l : List QObject)
    (ha : a ∉ p.m_validObjects) :
    drainEmitted h p (a :: l) = drainEmitted h p l := by
  simp [drainEmitted, List.filter_cons, ha]

theorem drainEmitted_cons_report (h : Host) (p : Probe) (a : QObject) (l : List QObject)
    (hv : a ∈ p.m_validObjects) (ha : filterObject h p a = some false) :
    drainEmitted h p (a :: l) = addedNotifications a ++ drainEmitted h p l := by
  simp [drainEmitted, List.filter_cons, ha, hv]

theorem drainEmitted_cons_evict (h : Host) (p : Probe) (a : QObject) (l : List QObject)
    (ha : filterObject h p a = some true) :
    drainEmitted h { p with m_validObjects := QSet.remove p.m_validObjects a } l
      = drainEmitted h p (a :: l) := by
  unfold drainEmitted
  simp only [filterObject_valid_update, List.filter_cons, ha]
  have hne : (decide (a ∈ p.m_validObjects) && (some true == some false)) = false := by
    cases decide (a ∈ p.m_validObjects) <;> rfl
  rw [hne]
  simp only [Bool.false_eq_true, if_false]
  congr 1
  apply List.filter_congr
  intro x _
  by_cases hxa : x = a
  · subst hxa
    simp [ha]
  · simp [QSet.mem_remove, hxa]

/-- The loop of `queuedObjectsFullyConstructed`: the completion step has run for
a prefix `l1` of the list — all of it unless the process aborted — and the
result is described by `drainValid` and `drainEmitted`. -/
theorem foldl_objectFullyConstructed_spec (h : Host) :
    ∀ (l : List QObject) (g : Process) (p : Probe), g.aborted = false →
      g.s_instance = some p →
      ∃ l1 l2, l = l1 ++ l2 ∧
        ((l.foldl (objectFullyConstructed h) g).aborted = false → l2 = []) ∧
        l.foldl (objectFullyConstructed h) g =
          { g with
            s_instance := some { p with m_validObjects := drainValid h p l1 }
            emitted := g.emitted ++ drainEmitted h p l1
            aborted := (l.foldl (objectFullyConstructed h) g).aborted } := by
  intro l
  induction l with
  | nil =>
    intro g p ha hp
    refine ⟨[], [], rfl, fun _ => rfl, ?_⟩
    obtain ⟨inst, ft, buf, em, ab⟩ := g
    obtain ⟨self, w, v, q, t⟩ := p
    simp only at hp
    subst hp
    simp [drainValid_nil, drainEmitted_nil]
  | cons a t ih =>
    intro g p ha hp
    rw [List.foldl_cons]
    by_cases hv : a ∈ p.m_validObjects
    · cases hf : filterObject h p a with
      | none =>
        have h1 : objectFullyConstructed h g a = { g with aborted := true } := by
          simp [objectFullyConstructed, ha, hp, hv, hf]
        rw [h1, foldl_objectFullyConstructed_of_aborted h t _ rfl]
        refine ⟨[], a :: t, rfl, fun hc => by simp at hc, ?_⟩
        obtain ⟨inst, ft, buf, em, ab⟩ := g
        obtain ⟨self, w, v, q, t⟩ := p
        simp only at hp
        subst hp
        simp [drainValid_nil, drainEmitted_nil]
      | some b =>
        cases b with
        | true =>
          have h1 : objectFullyConstructed h g a =
              { g with s_instance := some { p with
                  m_validObjects := QSet.remove p.m_validObjects a } } := by
            simp [objectFullyConstructed, ha, hp, hv, hf]
          rw [h1]
          obtain ⟨l1, l2, hl, hab, heq⟩ := ih
            { g with s_instance := some { p with
                m_validObjects := QSet.remove p.m_validObjects a } }
            { p with m_validObjects := QSet.remove p.m_validObjects a } ha rfl
          refine ⟨a :: l1, l2, by simp [hl], hab, ?_⟩
          rw [heq]
          simp only [drainValid_cons_evict h p a l1 hf, drainEmitted_cons_evict h p a l1 hf]
        | false =>
          by_cases hk : parentKnown h p a = true
          · have h1 : objectFullyConstructed h g a =
                { g with emitted := g.emitted ++ addedNotifications a } := by
              simp [objectFullyConstructed, ha, hp, hv, hf, hk]
            rw [h1]
            obtain ⟨l1, l2, hl, hab, heq⟩ := ih
              { g with emitted := g.emitted ++ addedNotifications a } p ha hp
            refine ⟨a :: l1, l2, by simp [hl], hab, ?_⟩
            rw [heq]
            simp only [drainValid_cons_skip h p a l1 (Or.inr hf),
              drainEmitted_cons_report h p a l1 hv hf, List.append_assoc]
          · have h1 : objectFullyConstructed h g a = { g with aborted := true } := by
              simp [objectFullyConstructed, ha, hp, hv, hf, hk]
            rw [h1, foldl_objectFullyConstructed_of_aborted h t _ rfl]
            refine ⟨[], a :: t, rfl, fun hc => by simp at hc, ?_⟩
            obtain ⟨inst, ft, buf, em, ab⟩ := g
            obtain ⟨self, w, v, q, t⟩ := p
            simp only at hp
            subst hp
            simp [drainValid_nil, drainEmitted_nil]
    · have h1 : objectFullyConstructed h g a = g := by
        simp [objectFullyConstructed, ha, hp, hv]
      rw [h1]
      obtain ⟨l1, l2, hl, hab, heq⟩ := ih g p ha hp
      refine ⟨a :: l1, l2, by simp [hl], hab, ?_⟩
      rw [heq]
      simp only [drainValid_cons_skip h p a l1 (Or.inl hv), drainEmitted_cons_skip h p a l1 hv]

theorem connectionRemoved_shape (h : Host) (g : Process) (s : Option QObject)
    (sig : Option CString) (r : Option QObject) (m : Option CString) :
    ∃ d ab, connectionRemoved h g s sig r m
        = { g with emitted := g.emitted ++ d, aborted := ab } ∧
      (d = [] ∨ d = [.modelConnectionRemoved s sig r m]) := by
  unfold connectionRemoved
  split
  · exact ⟨[], g.aborted, by simp, Or.inl rfl⟩
  split
  · exact ⟨[], g.aborted, by simp, Or.inl rfl⟩
  split
  · exact ⟨[], g.aborted, by simp, Or.inl rfl⟩
  split
  · exact ⟨[], true, by simp, Or.inl rfl⟩
  · exact ⟨[], g.aborted, by simp, Or.inl rfl⟩
  split
  · exact ⟨[], true, by simp, Or.inl rfl⟩
  · exact ⟨[], g.aborted, by simp, Or.inl rfl⟩
  · exact ⟨_, g.aborted, rfl, Or.inr rfl⟩

/-- Shape of `objectRemoved` on a tracked object: the registry members are
erased, and what is emitted is a sub-sequence of `removedNotifications obj`
that starts with the two model calls. -/
theorem objectRemoved_shape (h : Host) (g : Process) (obj : QObject) (p : Probe)
    (ha : g.aborted = false) (hp : g.s_instance = some p) (hv : obj ∈ p.m_validObjects) :
    ∃ d ab, objectRemoved h g obj
        = { g with s_instance := some (p.erased obj), emitted := g.emitted ++ d, aborted := ab } ∧
      d.Sublist (removedNotifications obj) := by
  obtain ⟨d1, ab1, h1, hd1⟩ := connectionRemoved_shape h
    { g with s_instance := some (p.erased obj)
             emitted := g.emitted ++ [.listObjectRemoved obj, .treeObjectRemoved obj] }
    (some obj) none none none
  obtain ⟨d2, ab2, h2, hd2⟩ := connectionRemoved_shape h
    { g with s_instance := some (p.erased obj)
             emitted := (g.emitted ++ [.listObjectRemoved obj, .treeObjectRemoved obj]) ++ d1
             aborted := ab1 }
    none none (some obj) none
  have hr : objectRemoved h g obj =
      if ab2 then
        { g with s_instance := some (p.erased obj)
                 emitted := ((g.emitted ++ [.listObjectRemoved obj, .treeObjectRemoved obj]) ++ d1) ++ d2
                 aborted := ab2 }
      else
        { g with s_instance := some (p.erased obj)
                 emitted := (((g.emitted ++ [.listObjectRemoved obj, .treeObjectRemoved obj]) ++ d1) ++ d2)
                    ++ [.objectDestroyed obj]
                 aborted := ab2 } := by
    unfold objectRemoved
    simp only [ha, hp, hv, Bool.false_eq_true, if_false, not_true_eq_false]
    simp only [Probe.erased, ha] at h1 h2
    simp only [h1, h2]
    cases ab2 <;> simp [Probe.erased]
  rw [hr]
  cases ab2 with
  | true =>
    refine ⟨_, true, by simp [List.append_assoc]; rfl, ?_⟩
    rcases hd1 with rfl | rfl <;> rcases hd2 with rfl | rfl <;>
      simp [removedNotifications]
  | false =>
    refine ⟨_, false, by simp [List.append_assoc]; rfl, ?_⟩
    rcases hd1 with rfl | rfl <;> rcases hd2 with rfl | rfl <;>
      simp [removedNotifications]

theorem Probe.erased_consistent {p : Probe} (hc : p.Consistent) (obj : QObject) :
    (p.erased obj).Consistent := by
  refine ⟨?_, hc.queued_nodup.erase obj, QSet.remove_nodup hc.valid_nodup obj, ?_⟩
  · intro o ho
    simp only [Probe.erased] at ho ⊢
    rw [hc.queued_nodup.mem_erase_iff] at ho
    exact QSet.mem_remove.mpr ⟨hc.queued_valid o ho.2, ho.1⟩
  · simp only [Probe.erased]
    by_cases he : p.m_queuedObjects.erase obj = []
    · simp [he]
    · have hne : p.m_queuedObjects ≠ [] := by
        intro h0
        rw [h0] at he
        exact he rfl
      have ht := hc.timer.mpr hne
      simp [he, ht]

theorem objectRemoved_of_not_tracked (h : Host) (g : Process) (obj : QObject) (p : Probe)
    (hp : g.s_instance = some p) (hv : obj ∉ p.m_validObjects) :
    objectRemoved h g obj = g := by
  unfold objectRemoved
  split
  · rfl
  · simp [hp, hv]

theorem objectRemoved_consistent (h : Host) (g : Process) (obj : QObject)
    (hc : g.Consistent) : (objectRemoved h g obj).Consistent := by
  by_cases ha : g.aborted = true
  · have : objectRemoved h g obj = g := by simp [objectRemoved, ha]
    rw [this]; exact hc
  have ha' : g.aborted = false := by simpa using ha
  cases hp : g.s_instance with
  | none =>
    intro _ q hq
    simp [objectRemoved, ha', hp] at hq
  | some p =>
    by_cases hv : obj ∈ p.m_validObjects
    · obtain ⟨d, ab, heq, -⟩ := objectRemoved_shape h g obj p ha' hp hv
      rw [heq]
      intro _ q hq
      simp only [Option.some.injEq] at hq
      subst hq
      exact Probe.erased_consistent (hc ha' p hp) obj
    · rw [objectRemoved_of_not_tracked h g obj p hp hv]; exact hc

/-- The queue timer firing, in full: the completion step has run for a prefix
`l1` of the queue; if the process has not aborted, the call was made on the
probe's thread, the queue held no object twice, all of it was completed and it
is now empty. -/
theorem queueTimerTimeout_spec (h : Host) (g : Process) (p : Probe)
    (ha : g.aborted = false) (hp : g.s_instance = some p) :
    ∃ l1 l2 p' ab, p.m_queuedObjects = l1 ++ l2 ∧
      queueTimerTimeout h g =
        { g with s_instance := some p'
                 emitted := g.emitted ++ drainEmitted h p l1
                 aborted := ab } ∧
      p'.self = p.self ∧ p'.m_window = p.m_window ∧
      (ab = false →
        l2 = [] ∧ h.currentThread = h.thread p.self ∧ p.m_queuedObjects.Nodup ∧
        p' = { p with m_validObjects := drainValid h p p.m_queuedObjects
                      m_queuedObjects := []
                      m_queueTimerActive := false }) := by
  obtain ⟨inst, ft, buf, em, ab⟩ := g
  simp only at ha hp
  subst ha hp
  have hq : queueTimerTimeout h ⟨some p, ft, buf, em, false⟩ = queuedObjectsFullyConstructed h
      ⟨some { p with m_queueTimerActive := false }, ft, buf, em, false⟩ := by
    simp [queueTimerTimeout]
  rw [hq]
  unfold queuedObjectsFullyConstructed
  simp only [Bool.false_eq_true, if_false]
  by_cases ht : h.currentThread = h.thread p.self
  swap
  · refine ⟨[], p.m_queuedObjects, { p with m_queueTimerActive := false }, true, rfl, ?_, rfl,
      rfl, fun hc => by simp at hc⟩
    simp [ht, drainEmitted_nil]
  by_cases hd : p.m_queuedObjects.length = p.m_queuedObjects.dedup.length
  swap
  · refine ⟨[], p.m_queuedObjects, { p with m_queueTimerActive := false }, true, rfl, ?_, rfl,
      rfl, fun hc => by simp at hc⟩
    simp [ht, hd, drainEmitted_nil]
  have hnd : p.m_queuedObjects.Nodup := by
    rw [← List.dedup_eq_self]
    exact (List.dedup_sublist _).eq_of_length hd.symm
  obtain ⟨l1, l2, hl, hab, heq⟩ := foldl_objectFullyConstructed_spec h p.m_queuedObjects
    ⟨some { p with m_queueTimerActive := false }, ft, buf, em, false⟩
    { p with m_queueTimerActive := false } rfl rfl
  simp only [ht, hd, ne_eq, not_true_eq_false, if_false]
  simp only at heq hab
  generalize hfold : List.foldl (objectFullyConstructed h)
    ⟨some { p with m_queueTimerActive := false }, ft, buf, em, false⟩ p.m_queuedObjects = r
    at heq hab ⊢
  cases hr : r.aborted with
  | true =>
    refine ⟨l1, l2, { p with m_queueTimerActive := false,
                             m_validObjects := drainValid h p l1 }, true, hl, ?_, rfl, rfl,
      fun hc => by simp at hc⟩
    simp only [hr, if_true]
    rw [heq, hr]
    rfl
  | false =>
    have hl2 := hab hr
    subst hl2
    simp only [List.append_nil] at hl
    subst hl
    refine ⟨p.m_queuedObjects, [], { p with m_validObjects := drainValid h p p.m_queuedObjects
                                            m_queuedObjects := []
                                            m_queueTimerActive := false }, false, by simp, ?_,
      rfl, rfl, fun _ => ⟨rfl, trivial, hnd, rfl⟩⟩
    simp only [hr, Bool.false_eq_true, if_false]
    rw [heq, hr]
    rfl

theorem drainValid_sublist (h : Host) (p : Probe) (l : List QObject) :
    (drainValid h p l).Sublist p.m_validObjects := by
  unfold drainValid
  exact List.filter_sublist _

theorem queueTimerTimeout_consistent (h : Host) (g : Process) (hc : g.Consistent) :
    (queueTimerTimeout h g).Consistent := by
  by_cases ha : g.aborted = true
  · have : queueTimerTimeout h g = g := by simp [queueTimerTimeout, ha]
    rw [this]; exact hc
  have ha' : g.aborted = false := by simpa using ha
  cases hp : g.s_instance with
  | none =>
    have : queueTimerTimeout h g = g := by simp [queueTimerTimeout, hp]
    rw [this]; exact hc
  | some p =>
    obtain ⟨l1, l2, p', ab, -, heq, -, -, hok⟩ := queueTimerTimeout_spec h g p ha' hp
    rw [heq]
    intro hab q hq
    simp only [Option.some.injEq] at hq
    subst hq
    obtain ⟨-, -, -, hp'⟩ := hok hab
    subst hp'
    refine ⟨by simp, by simp, ?_, by simp⟩
    exact (hc ha' p hp).valid_nodup.sublist (drainValid_sublist h p _)

theorem setWindow_consistent (g : Process) (w : Option QObject) (hc : g.Consistent) :
    (setWindow g w).Consistent := by
  unfold setWindow
  split
  · exact hc
  rename_i hab
  split
  · exact hc
  rename_i p hp
  intro _ q hq
  simp only [Option.some.injEq] at hq
  subst hq
  have := hc (by simpa using hab) p hp
  exact ⟨this.queued_valid, this.queued_nodup, this.valid_nodup, this.timer⟩

theorem setFilterThread_consistent (g : Process) (t : Option QThread) (hc : g.Consistent) :
    (setFilterThread g t).Consistent := by
  unfold setFilterThread
  split
  · exact hc
  · intro hab q hq
    exact hc hab q hq

theorem eventFilter_consistent (h : Host) (g : Process) (receiver child : QObject)
    (added : Bool) (hc : g.Consistent) : (eventFilter h g receiver child added).Consistent := by
  unfold eventFilter
  split
  · exact hc
  split
  · exact hc
  split
  · exact hc
  dsimp only
  split
  · intro hab; simp at hab
  split
  · split
    · intro hab; simp at hab
    · split
      · exact objectAdded_consistent h g child _ hc
      · split
        · intro hab q hq
          exact hc (by simpa using hab) q (by simpa using hq)
        · exact hc
  · split
    · exact objectRemoved_consistent h g child hc
    · exact hc

theorem step_consistent (h : Host) (g : Process) (op : Op) (hc : g.Consistent) :
    (step h g op).Consistent := by
  cases op with
  | add obj fromCtor => exact objectAdded_consistent h g obj fromCtor hc
  | remove obj => exact objectRemoved_consistent h g obj hc
  | drain => exact queueTimerTimeout_consistent h g hc
  | childEvent receiver child added => exact eventFilter_consistent h g receiver child added hc
  | setWindow w => exact setWindow_consistent g w hc
  | setFilterThread t => exact setFilterThread_consistent g t hc

theorem run_consistent (calls : List (Host × Op)) :
    ∀ g : Process, g.Consistent → (run g calls).Consistent := by
  induction calls with
  | nil => intro g hc; exact hc
  | cons c rest ih =>
    intro g hc
    obtain ⟨h, op⟩ := c
    exact ih _ (step_consistent h g op hc)

theorem initial_consistent (self : QObject) (ft : Option QThread) (buf : List QObject) :
    (Process.initial self ft buf).Consistent := by
  intro _ p hp
  simp only [Process.initial, Option.some.injEq] at hp
  subst hp
  exact ⟨by simp [Probe.new], by simp [Probe.new], by simp [Probe.new], by simp [Probe.new]⟩

theorem Reachable.consistent {g : Process} (hr : Reachable g) : g.Consistent := by
  obtain ⟨self, ft, buf, calls, rfl⟩ := hr
  exact run_consistent calls _ (initial_consistent self ft buf)

/-! ## What a call emits and which objects it can make valid -/

theorem objectAdded_emitted (h : Host) (g : Process) (obj : QObject) (fromCtor : Bool)
    (p : Probe) (hp : g.s_instance = some p) :
    ∃ d, (objectAdded h g obj fromCtor).emitted = g.emitted ++ d ∧
      d.Sublist (mayEmit h p (.add obj fromCtor)) := by
  unfold objectAdded
  split
  · exact ⟨[], by simp, List.nil_sublist _⟩
  split
  · exact ⟨[], by simp, List.nil_sublist _⟩
  simp only [hp]
  split
  · exact ⟨[], by simp, List.nil_sublist _⟩
  · exact ⟨[], by simp, List.nil_sublist _⟩
  rename_i hf
  split
  · split
    · exact ⟨[], by simp, List.nil_sublist _⟩
    · exact ⟨[], by simp, List.nil_sublist _⟩
  rename_i hv
  split
  · exact ⟨[], by simp, List.nil_sublist _⟩
  rename_i hk
  split
  · split
    · exact ⟨[], by simp, List.nil_sublist _⟩
    · exact ⟨[], by simp, List.nil_sublist _⟩
  rename_i hq
  unfold objectFullyConstructed
  split
  · exact ⟨[], by simp, List.nil_sublist _⟩
  dsimp only
  split
  · exact ⟨[], by simp, List.nil_sublist _⟩
  simp only [filterObject_valid_update, hf]
  split
  · refine ⟨addedNotifications obj, rfl, ?_⟩
    simp [mayEmit, hq, hf, hv]
  · exact ⟨[], by simp, List.nil_sublist _⟩

theorem objectRemoved_emitted (h : Host) (g : Process) (obj : QObject)
    (p : Probe) (hp : g.s_instance = some p) :
    ∃ d, (objectRemoved h g obj).emitted = g.emitted ++ d ∧
      d.Sublist (mayEmit h p (.remove obj)) := by
  by_cases ha : g.aborted = true
  · have : objectRemoved h g obj = g := by simp [objectRemoved, ha]
    rw [this]; exact ⟨[], by simp, List.nil_sublist _⟩
  have ha' : g.aborted = false := by simpa using ha
  by_cases hv : obj ∈ p.m_validObjects
  · obtain ⟨d, ab, heq, hd⟩ := objectRemoved_shape h g obj p ha' hp hv
    rw [heq]
    exact ⟨d, rfl, by simpa [mayEmit, hv] using hd⟩
  · rw [objectRemoved_of_not_tracked h g obj p hp hv]
    exact ⟨[], by simp, List.nil_sublist _⟩

theorem drainEmitted_append (h : Host) (p : Probe) (l1 l2 : List QObject) :
    drainEmitted h p (l1 ++ l2) = drainEmitted h p l1 ++ drainEmitted h p l2 := by
  simp [drainEmitted, List.filter_append, List.flatMap_append]

theorem queueTimerTimeout_emitted (h : Host) (g : Process)
    (p : Probe) (hp : g.s_instance = some p) :
    ∃ d, (queueTimerTimeout h g).emitted = g.emitted ++ d ∧
      d.Sublist (mayEmit h p .drain) := by
  by_cases ha : g.aborted = true
  · have : queueTimerTimeout h g = g := by simp [queueTimerTimeout, ha]
    rw [this]; exact ⟨[], by simp, List.nil_sublist _⟩
  have ha' : g.aborted = false := by simpa using ha
  obtain ⟨l1, l2, p', ab, hl, heq, -, -, -⟩ := queueTimerTimeout_spec h g p ha' hp
  rw [heq]
  refine ⟨drainEmitted h p l1, rfl, ?_⟩
  simp only [mayEmit, hl, drainEmitted_append]
  exact List.sublist_append_left _ _

theorem eventFilter_emitted (h : Host) (g : Process) (receiver child : QObject)
    (added : Bool) (p : Probe) (hp : g.s_instance = some p) :
    ∃ d, (eventFilter h g receiver child added).emitted = g.emitted ++ d ∧
      d.Sublist (mayEmit h p (.childEvent receiver child added)) := by
  unfold eventFilter
  split
  · exact ⟨[], by simp, List.nil_sublist _⟩
  simp only [hp]
  split
  · exact ⟨[], by simp, List.nil_sublist _⟩
  split
  · exact ⟨[], by simp, List.nil_sublist _⟩
  rename_i filtered hf
  split
  · rename_i hfa
    have hfa' : filtered = false ∧ added = true := by simpa using hfa
    obtain ⟨rfl, rfl⟩ := hfa'
    split
    · exact ⟨[], by simp, List.nil_sublist _⟩
    split
    · rename_i hv
      have hv' : child ∉ p.m_validObjects := by simpa using hv
      obtain ⟨d, hd, hs⟩ := objectAdded_emitted h g child objectAddedDefaultFromCtor p hp
      refine ⟨d, hd, ?_⟩
      simpa [mayEmit, hf, hv', objectAddedDefaultFromCtor] using hs
    · rename_i hv
      have hv' : child ∈ p.m_validObjects := by simpa using hv
      split
      · rename_i hq
        exact ⟨_, rfl, by simp [mayEmit, hf, hv', hq]⟩
      · exact ⟨[], by simp, List.nil_sublist _⟩
  · rename_i hfa
    split
    · rename_i hv
      have hv' : child ∈ p.m_validObjects := by simpa using hv
      obtain ⟨d, hd, hs⟩ := objectRemoved_emitted h g child p hp
      refine ⟨d, hd, ?_⟩
      have hne : ¬ (filterObject h p child = some false ∧ added = true) := by
        rintro ⟨h1, h2⟩
        rw [hf] at h1
        simp only [Option.some.injEq] at h1
        subst h1 h2
        simp at hfa
      simpa [mayEmit, hne, hv'] using hs
    · exact ⟨[], by simp, List.nil_sublist _⟩

theorem setWindow_emitted (g : Process) (w : Option QObject) :
    (setWindow g w).emitted = g.emitted := by
  unfold setWindow
  repeat' split
  all_goals rfl

/-- Every call only appends to the trace of notifications, and what it appends
is a sub-sequence of `mayEmit`. -/
theorem step_emitted (h : Host) (g : Process) (op : Op) (p : Probe)
    (hp : g.s_instance = some p) :
    ∃ d, (step h g op).emitted = g.emitted ++ d ∧ d.Sublist (mayEmit h p op) := by
  cases op with
  | add obj fromCtor => exact objectAdded_emitted h g obj fromCtor p hp
  | remove obj => exact objectRemoved_emitted h g obj p hp
  | drain => exact queueTimerTimeout_emitted h g p hp
  | childEvent receiver child added => exact eventFilter_emitted h g receiver child added p hp
  | setWindow w => exact ⟨[], by simp [step, setWindow_emitted], List.nil_sublist _⟩
  | setFilterThread t =>
    refine ⟨[], ?_, List.nil_sublist _⟩
    simp only [step, setFilterThread]
    split <;> simp

theorem addedObject_of_mem_addedNotifications {n : Notification} {obj x : QObject}
    (hn : n ∈ addedNotifications obj) (hx : n.addedObject = some x) : x = obj := by
  simp only [addedNotifications, List.mem_cons, List.mem_singleton, List.not_mem_nil,
    or_false] at hn
  rcases hn with rfl | rfl | rfl | rfl <;>
    · simp only [Notification.addedObject, Option.some.injEq] at hx
      exact hx.symm

theorem addedObject_of_mem_removedNotifications {n : Notification} {obj : QObject}
    (hn : n ∈ removedNotifications obj) : n.addedObject = none := by
  simp only [removedNotifications, List.mem_cons, List.mem_singleton, List.not_mem_nil,
    or_false] at hn
  rcases hn with rfl | rfl | rfl | rfl | rfl <;> rfl

theorem mem_drainEmitted {h : Host} {p : Probe} {l : List QObject} {n : Notification}
    (hn : n ∈ drainEmitted h p l) :
    ∃ o ∈ l, o ∈ p.m_validObjects ∧ filterObject h p o = some false ∧
      n ∈ addedNotifications o := by
  simp only [drainEmitted, List.mem_flatMap, List.mem_filter, Bool.and_eq_true,
    decide_eq_true_eq, beq_iff_eq] at hn
  obtain ⟨o, ⟨ho, hv, hf⟩, hn⟩ := hn
  exact ⟨o, ho, hv, hf, hn⟩

/-- Whatever a call may emit as an "added" notification concerns an object that
the filter does not exclude in the host state of the call. -/
theorem mayEmit_added_not_filtered (h : Host) (p : Probe) (op : Op) (n : Notification)
    (x : QObject) (hn : n ∈ mayEmit h p op) (hx : n.addedObject = some x) :
    filterObject h p x = some false := by
  cases op with
  | add obj fromCtor =>
    simp only [mayEmit] at hn
    split at hn
    · simp at hn
    split at hn
    · rename_i hc
      rw [addedObject_of_mem_addedNotifications hn hx]
      exact hc.1
    · simp at hn
  | remove obj =>
    simp only [mayEmit] at hn
    split at hn
    · rw [addedObject_of_mem_removedNotifications hn] at hx; cases hx
    · simp at hn
  | drain =>
    obtain ⟨o, -, -, hf, hno⟩ := mem_drainEmitted hn
    rw [addedObject_of_mem_addedNotifications hno hx]
    exact hf
  | childEvent receiver child added =>
    simp only [mayEmit] at hn
    split at hn
    · rename_i hc
      split at hn
      · split at hn
        · simp at hn
        · simp only [List.mem_cons, List.mem_singleton, List.not_mem_nil, or_false] at hn
          rcases hn with rfl | rfl
          · cases hx
          · simp only [Notification.addedObject, Option.some.injEq] at hx
            rw [← hx]; exact hc.1
      · split at hn
        · simp at hn
        · rw [addedObject_of_mem_addedNotifications hn hx]
          exact hc.1
    · split at hn
      · rw [addedObject_of_mem_removedNotifications hn] at hx; cases hx
      · simp at hn
  | setWindow w => simp [mayEmit] at hn
  | setFilterThread t => simp [mayEmit] at hn

theorem objectAdded_members (h : Host) (g : Process) (obj : QObject) (fromCtor : Bool)
    (p : Probe) (hp : g.s_instance = some p) :
    ∃ p', (objectAdded h g obj fromCtor).s_instance = some p' ∧ p'.self = p.self ∧
      p'.m_window = p.m_window ∧
      (∀ x ∈ p'.m_validObjects, x ∈ p.m_validObjects ∨ filterObject h p x = some false) ∧
      (∀ x ∈ p'.m_queuedObjects, x ∈ p.m_queuedObjects ∨ filterObject h p x = some false) := by
  have same : ∃ p', g.s_instance = some p' ∧ p'.self = p.self ∧ p'.m_window = p.m_window ∧
      (∀ x ∈ p'.m_validObjects, x ∈ p.m_validObjects ∨ filterObject h p x = some false) ∧
      (∀ x ∈ p'.m_queuedObjects, x ∈ p.m_queuedObjects ∨ filterObject h p x = some false) :=
    ⟨p, hp, rfl, rfl, fun x hx => Or.inl hx, fun x hx => Or.inl hx⟩
  unfold objectAdded
  split
  · exact same
  split
  · exact same
  simp only [hp]
  split
  · exact ⟨p, rfl, rfl, rfl, fun x hx => Or.inl hx, fun x hx => Or.inl hx⟩
  · exact same
  rename_i hf
  split
  · split
    · exact same
    · exact ⟨p, rfl, rfl, rfl, fun x hx => Or.inl hx, fun x hx => Or.inl hx⟩
  rename_i hv
  have hins : ∀ x ∈ QSet.insert p.m_validObjects obj,
      x ∈ p.m_validObjects ∨ filterObject h p x = some false := by
    intro x hx
    rw [QSet.insert_of_not_mem hv, List.mem_append, List.mem_singleton] at hx
    rcases hx with hx | rfl
    · exact Or.inl hx
    · exact Or.inr hf
  split
  · exact ⟨p, rfl, rfl, rfl, fun x hx => Or.inl hx, fun x hx => Or.inl hx⟩
  split
  · split
    · exact ⟨_, rfl, rfl, rfl, hins, fun x hx => Or.inl hx⟩
    · refine ⟨_, rfl, rfl, rfl, hins, ?_⟩
      intro x hx
      simp only [List.mem_append, List.mem_singleton] at hx
      rcases hx with hx | rfl
      · exact Or.inl hx
      · exact Or.inr hf
  unfold objectFullyConstructed
  split
  · exact ⟨_, rfl, rfl, rfl, hins, fun x hx => Or.inl hx⟩
  dsimp only
  split
  · exact ⟨_, rfl, rfl, rfl, hins, fun x hx => Or.inl hx⟩
  simp only [filterObject_valid_update, hf]
  split
  · exact ⟨_, rfl, rfl, rfl, hins, fun x hx => Or.inl hx⟩
  · exact ⟨_, rfl, rfl, rfl, hins, fun x hx => Or.inl hx⟩

theorem objectRemoved_members (h : Host) (g : Process) (obj : QObject)
    (p : Probe) (hp : g.s_instance = some p) :
    ∃ p', (objectRemoved h g obj).s_instance = some p' ∧ p'.self = p.self ∧
      p'.m_window = p.m_window ∧
      (∀ x ∈ p'.m_validObjects, x ∈ p.m_validObjects) ∧
      (∀ x ∈ p'.m_queuedObjects, x ∈ p.m_queuedObjects) := by
  by_cases ha : g.aborted = true
  · have : objectRemoved h g obj = g := by simp [objectRemoved, ha]
    rw [this]; exact ⟨p, hp, rfl, rfl, fun x hx => hx, fun x hx => hx⟩
  have ha' : g.aborted = false := by simpa using ha
  by_cases hv : obj ∈ p.m_validObjects
  · obtain ⟨d, ab, heq, -⟩ := objectRemoved_shape h g obj p ha' hp hv
    rw [heq]
    refine ⟨p.erased obj, rfl, rfl, rfl, ?_, ?_⟩
    · intro x hx
      exact (QSet.mem_remove.mp hx).1
    · intro x hx
      exact List.mem_of_mem_erase hx
  · rw [objectRemoved_of_not_tracked h g obj p hp hv]
    exact ⟨p, hp, rfl, rfl, fun x hx => hx, fun x hx => hx⟩

theorem queueTimerTimeout_members (h : Host) (g : Process)
    (p : Probe) (hp : g.s_instance = some p) :
    ∃ p', (queueTimerTimeout h g).s_instance = some p' ∧ p'.self = p.self ∧
      p'.m_window = p.m_window ∧
      ((queueTimerTimeout h g).aborted = false →
        (∀ x ∈ p'.m_validObjects, x ∈ p.m_validObjects) ∧ p'.m_queuedObjects = []) := by
  by_cases ha : g.aborted = true
  · have : queueTimerTimeout h g = g := by simp [queueTimerTimeout, ha]
    rw [this]; exact ⟨p, hp, rfl, rfl, fun hc => by rw [ha] at hc; cases hc⟩
  have ha' : g.aborted = false := by simpa using ha
  obtain ⟨l1, l2, p', ab, -, heq, hs, hw, hok⟩ := queueTimerTimeout_spec h g p ha' hp
  rw [heq]
  refine ⟨p', rfl, hs, hw, ?_⟩
  intro hab
  obtain ⟨-, -, -, hp'⟩ := hok hab
  subst hp'
  exact ⟨fun x hx => (drainValid_sublist h p _).subset hx, rfl⟩

theorem eventFilter_members (h : Host) (g : Process) (receiver child : QObject)
    (added : Bool) (p : Probe) (hp : g.s_instance = some p) :
    ∃ p', (eventFilter h g receiver child added).s_instance = some p' ∧ p'.self = p.self ∧
      p'.m_window = p.m_window ∧
      (∀ x ∈ p'.m_validObjects, x ∈ p.m_validObjects ∨ filterObject h p x = some false) ∧
      (∀ x ∈ p'.m_queuedObjects, x ∈ p.m_queuedObjects ∨ filterObject h p x = some false) := by
  have same : ∃ p', g.s_instance = some p' ∧ p'.self = p.self ∧ p'.m_window = p.m_window ∧
      (∀ x ∈ p'.m_validObjects, x ∈ p.m_validObjects ∨ filterObject h p x = some false) ∧
      (∀ x ∈ p'.m_queuedObjects, x ∈ p.m_queuedObjects ∨ filterObject h p x = some false) :=
    ⟨p, hp, rfl, rfl, fun x hx => Or.inl hx, fun x hx => Or.inl hx⟩
  unfold eventFilter
  split
  · exact same
  simp only [hp]
  split
  · exact same
  split
  · exact ⟨p, rfl, rfl, rfl, fun x hx => Or.inl hx, fun x hx => Or.inl hx⟩
  split
  · split
    · exact ⟨p, rfl, rfl, rfl, fun x hx => Or.inl hx, fun x hx => Or.inl hx⟩
    split
    · exact objectAdded_members h g child _ p hp
    · split
      · exact ⟨p, rfl, rfl, rfl, fun x hx => Or.inl hx, fun x hx => Or.inl hx⟩
      · exact same
  · split
    · obtain ⟨p', h1, h2, h3, h4, h5⟩ := objectRemoved_members h g child p hp
      exact ⟨p', h1, h2, h3, fun x hx => Or.inl (h4 x hx), fun x hx => Or.inl (h5 x hx)⟩
    · exact same

theorem setWindow_members (g : Process) (w : Option QObject)
    (p : Probe) (hp : g.s_instance = some p) :
    ∃ p', (setWindow g w).s_instance = some p' ∧ p'.self = p.self ∧
      p'.m_validObjects = p.m_validObjects ∧ p'.m_queuedObjects = p.m_queuedObjects := by
  unfold setWindow
  split
  · exact ⟨p, hp, rfl, rfl, rfl⟩
  simp only [hp]
  exact ⟨_, rfl, rfl, rfl, rfl⟩

/-- A call keeps the probe in place and can only make valid, or queue, an object
that the filter does not exclude in the host state of the call; a completed
drain empties the queue. -/
theorem step_members (h : Host) (g : Process) (op : Op) (p : Probe)
    (hp : g.s_instance = some p) :
    ∃ p', (step h g op).s_instance = some p' ∧ p'.self = p.self ∧
      ((step h g op).aborted = false →
        (∀ x ∈ p'.m_validObjects, x ∈ p.m_validObjects ∨ filterObject h p x = some false) ∧
        (∀ x ∈ p'.m_queuedObjects, x ∈ p.m_queuedObjects ∨ filterObject h p x = some false)) := by
  cases op with
  | add obj fromCtor =>
    obtain ⟨p', h1, h2, -, h4, h5⟩ := objectAdded_members h g obj fromCtor p hp
    exact ⟨p', h1, h2, fun _ => ⟨h4, h5⟩⟩
  | remove obj =>
    obtain ⟨p', h1, h2, -, h4, h5⟩ := objectRemoved_members h g obj p hp
    exact ⟨p', h1, h2, fun _ => ⟨fun x hx => Or.inl (h4 x hx), fun x hx => Or.inl (h5 x hx)⟩⟩
  | drain =>
    obtain ⟨p', h1, h2, -, h4⟩ := queueTimerTimeout_members h g p hp
    refine ⟨p', h1, h2, fun hab => ?_⟩
    obtain ⟨hv, hq⟩ := h4 hab
    exact ⟨fun x hx => Or.inl (hv x hx), fun x hx => by rw [hq] at hx; cases hx⟩
  | childEvent receiver child added =>
    obtain ⟨p', h1, h2, -, h4, h5⟩ := eventFilter_members h g receiver child added p hp
    exact ⟨p', h1, h2, fun _ => ⟨h4, h5⟩⟩
  | setWindow w =>
    obtain ⟨p', h1, h2, h3, h4⟩ := setWindow_members g w p hp
    exact ⟨p', h1, h2, fun _ => ⟨fun x hx => Or.inl (h3 ▸ hx), fun x hx => Or.inl (h4 ▸ hx)⟩⟩
  | setFilterThread t =>
    refine ⟨p, ?_, rfl, fun _ => ⟨fun x hx => Or.inl hx, fun x hx => Or.inl hx⟩⟩
    simp only [step, setFilterThread]
    split <;> simp [hp]

theorem parentKnown_valid_mono (h : Host) (p : Probe) (obj : QObject) (v : List QObject)
    (hsub : ∀ x ∈ p.m_validObjects, x ∈ v) (hk : parentKnown h p obj = true) :
    parentKnown h { p with m_validObjects := v } obj = true := by
  unfold parentKnown at hk ⊢
  cases hq : h.parent obj with
  | none => rfl
  | some q =>
    rw [hq] at hk
    simp only [decide_eq_true_eq] at hk ⊢
    exact hsub q hk

theorem objectAdded_accept_queue (h : Host) (g : Process) (obj : QObject) (fromCtor : Bool)
    (p : Probe) (ha : g.aborted = false) (hp : g.s_instance = some p)
    (hl : g.filterThread ≠ h.thread obj) (hf : filterObject h p obj = some false)
    (hv : obj ∉ p.m_validObjects) (hk : parentKnown h p obj = true)
    (hq : obj ∉ p.m_queuedObjects) (hc : (fromCtor || parentQueued h p obj) = true) :
    objectAdded h g obj fromCtor =
      { g with s_instance := some { p with
          m_validObjects := p.m_validObjects ++ [obj]
          m_queuedObjects := p.m_queuedObjects ++ [obj]
          m_queueTimerActive := true } } := by
  unfold objectAdded
  simp only [ha, hp, hl, hf, hv, hk, hq, hc, QSet.insert_of_not_mem hv, Bool.false_eq_true,
    if_false, if_true, Bool.not_true]

theorem objectAdded_accept_now (h : Host) (g : Process) (obj : QObject) (fromCtor : Bool)
    (p : Probe) (ha : g.aborted = false) (hp : g.s_instance = some p)
    (hl : g.filterThread ≠ h.thread obj) (hf : filterObject h p obj = some false)
    (hv : obj ∉ p.m_validObjects) (hk : parentKnown h p obj = true)
    (hc : (fromCtor || parentQueued h p obj) = false) :
    objectAdded h g obj fromCtor =
      { g with s_instance := some { p with m_validObjects := p.m_validObjects ++ [obj] }
               emitted := g.emitted ++ addedNotifications obj } := by
  have hk' := parentKnown_valid_mono h p obj (p.m_validObjects ++ [obj])
    (fun x hx => List.mem_append_left _ hx) hk
  unfold objectAdded
  simp only [ha, hp, hl, hf, hv, hk, hc, QSet.insert_of_not_mem hv, Bool.false_eq_true,
    if_false, Bool.not_true]
  unfold objectFullyConstructed
  simp [ha, hf, hk']

theorem objectAdded_known (h : Host) (g : Process) (obj : QObject)
    (p : Probe) (hp : g.s_instance = some p) (hf : filterObject h p obj = some false)
    (hv : obj ∈ p.m_validObjects) :
    objectAdded h g obj true = g := by
  unfold objectAdded
  split
  · rfl
  split
  · rfl
  simp only [hp, hf, hv, if_true]

theorem step_of_aborted (h : Host) (g : Process) (op : Op) (ha : g.aborted = true) :
    step h g op = g := by
  cases op <;>
    simp [step, objectAdded, objectRemoved, queueTimerTimeout, eventFilter, setWindow,
      setFilterThread, ha]

theorem mentions_of_mem_addedNotifications {n : Notification} {obj x : QObject}
    (hn : n ∈ addedNotifications obj) (hx : n.mentions x = true) : x = obj := by
  simp only [addedNotifications, List.mem_cons, List.mem_singleton, List.not_mem_nil,
    or_false] at hn
  rcases hn with rfl | rfl | rfl | rfl <;>
    · simp only [Notification.mentions, beq_iff_eq] at hx
      exact hx.symm

theorem mentions_of_mem_removedNotifications {n : Notification} {obj x : QObject}
    (hn : n ∈ removedNotifications obj) (hx : n.mentions x = true) : x = obj := by
  simp only [removedNotifications, List.mem_cons, List.mem_singleton, List.not_mem_nil,
    or_false] at hn
  rcases hn with rfl | rfl | rfl | rfl | rfl <;>
    · simp [Notification.mentions] at hx
      exact hx.symm

/-- An object that is neither valid nor queued and that the filter excludes is
named by nothing a call may emit. -/
theorem mayEmit_not_mentions (h : Host) (p : Probe) (op : Op) (x : QObject)
    (hv : x ∉ p.m_validObjects) (hf : filterObject h p x = some true) :
    ∀ n ∈ mayEmit h p op, n.mentions x = false := by
  intro n hn
  by_contra hm
  have hm' : n.mentions x = true := by simpa using hm
  cases op with
  | add obj fromCtor =>
    simp only [mayEmit] at hn
    split at hn
    · simp at hn
    split at hn
    · rename_i hc
      have := mentions_of_mem_addedNotifications hn hm'
      subst this
      rw [hf] at hc
      simp at hc
    · simp at hn
  | remove obj =>
    simp only [mayEmit] at hn
    split at hn
    · rename_i hc
      have := mentions_of_mem_removedNotifications hn hm'
      subst this
      exact hv hc
    · simp at hn
  | drain =>
    obtain ⟨o, -, hov, -, hno⟩ := mem_drainEmitted hn
    have := mentions_of_mem_addedNotifications hno hm'
    subst this
    exact hv hov
  | childEvent receiver child added =>
    simp only [mayEmit] at hn
    split at hn
    · rename_i hc
      have hne : x ≠ child := by
        rintro rfl
        rw [hf] at hc
        simp at hc
      split at hn
      · split at hn
        · simp at hn
        · simp only [List.mem_cons, List.mem_singleton, List.not_mem_nil, or_false] at hn
          rcases hn with rfl | rfl <;>
            · simp only [Notification.mentions, beq_iff_eq] at hm'
              exact hne hm'.symm
      · split at hn
        · simp at hn
        · exact hne (mentions_of_mem_addedNotifications hn hm')
    · split at hn
      · rename_i hc
        have := mentions_of_mem_removedNotifications hn hm'
        subst this
        exact hv hc
      · simp at hn
  | setWindow w => simp [mayEmit] at hn
  | setFilterThread t => simp [mayEmit] at hn

/-- An object excluded at every call of a sequence never becomes valid or
queued, and no notification names it. -/
theorem run_excluded (x : QObject) (calls : List (Host × Op)) :
    ∀ g : Process, g.s_instance.isSome = true →
      (∀ p, g.s_instance = some p → x ∉ p.m_validObjects ∧ x ∉ p.m_queuedObjects) →
      excludedThroughout x g calls = true →
      ∃ d, (run g calls).emitted = g.emitted ++ d ∧ ∀ n ∈ d, n.mentions x = false := by
  induction calls with
  | nil => intro g _ _ _; exact ⟨[], by simp [run], by simp⟩
  | cons c rest ih =>
    intro g hsome hnot hex
    obtain ⟨h, op⟩ := c
    obtain ⟨p, hp⟩ := Option.isSome_iff_exists.mp hsome
    simp only [excludedThroughout, hp, Bool.and_eq_true, beq_iff_eq] at hex
    obtain ⟨hfx0, hrest⟩ := hex
    have hfx : ∀ q, g.s_instance = some q → filterObject h q x = some true := by
      intro q hq
      rw [hp] at hq
      simp only [Option.some.injEq] at hq
      subst hq
      exact hfx0
    obtain ⟨hxv, hxq⟩ := hnot p hp
    obtain ⟨d1, hd1, hs1⟩ := step_emitted h g op p hp
    have hm1 : ∀ n ∈ d1, n.mentions x = false := fun n hn =>
      mayEmit_not_mentions h p op x hxv (hfx p hp) n (hs1.subset hn)
    by_cases hab : (step h g op).aborted = true
    · have hfix : ∀ l : List (Host × Op), run (step h g op) l = step h g op := by
        intro l
        induction l with
        | nil => rfl
        | cons c' l' ihl =>
          obtain ⟨h', op'⟩ := c'
          simp only [run]
          rw [step_of_aborted h' _ op' hab]
          exact ihl
      refine ⟨d1, ?_, hm1⟩
      simp only [run]
      rw [hfix, hd1]
    · have hab' : (step h g op).aborted = false := by simpa using hab
      obtain ⟨p', hp', -, hmem⟩ := step_members h g op p hp
      obtain ⟨hmv, hmq⟩ := hmem hab'
      have hnot' : ∀ q, (step h g op).s_instance = some q →
          x ∉ q.m_validObjects ∧ x ∉ q.m_queuedObjects := by
        intro q hq
        rw [hp'] at hq
        simp only [Option.some.injEq] at hq
        subst hq
        constructor
        · intro hx
          rcases hmv x hx with h1 | h1
          · exact hxv h1
          · rw [hfx p hp] at h1; simp at h1
        · intro hx
          rcases hmq x hx with h1 | h1
          · exact hxq h1
          · rw [hfx p hp] at h1; simp at h1
      obtain ⟨d2, hd2, hm2⟩ := ih (step h g op) (by rw [hp']; rfl) hnot' hrest
      refine ⟨d1 ++ d2, ?_, ?_⟩
      · simp only [run]
        rw [hd2, hd1, List.append_assoc]
      · intro n hn
        rcases List.mem_append.mp hn with hn | hn
        · exact hm1 n hn
        · exact hm2 n hn

theorem run_of_aborted (calls : List (Host × Op)) :
    ∀ g : Process, g.aborted = true → run g calls = g := by
  induction calls with
  | nil => intro g _; rfl
  | cons c rest ih =>
    intro g ha
    obtain ⟨h, op⟩ := c
    simp only [run]
    rw [step_of_aborted h g op ha]
    exact ih g ha

theorem count_objectCreated_flatMap (x : QObject) (l : List QObject) :
    (l.flatMap addedNotifications).count (.objectCreated x) = l.count x := by
  induction l with
  | nil => rfl
  | cons a t ih =>
    rw [List.flatMap_cons, List.count_append, ih, List.count_cons]
    by_cases hax : a = x
    · subst hax
      simp [addedNotifications, List.count_cons]
      omega
    · have hxa : ¬ x = a := fun hc => hax hc.symm
      simp [addedNotifications, List.count_cons, hax, hxa]

/-! ## Independence of the calling thread, bootstrap and teardown -/

theorem descendantOf_currentThread (h : Host) (t : Option QThread) (asc : Option QObject) :
    ∀ (fuel : Nat) (obj : QObject),
      descendantOf { h with currentThread := t } asc fuel obj = descendantOf h asc fuel obj := by
  intro fuel
  induction fuel with
  | zero => intro obj; rfl
  | succ n ih =>
    intro obj
    simp only [descendantOf]
    cases h.parent obj with
    | none => rfl
    | some q =>
      simp only []
      rw [ih q]

theorem filterObject_currentThread (h : Host) (t : Option QThread) (p : Probe)
    (obj : QObject) :
    filterObject { h with currentThread := t } p obj = filterObject h p obj := by
  simp only [filterObject, descendantOf_currentThread]

theorem objectFullyConstructed_currentThread (h : Host) (t : Option QThread) (g : Process)
    (obj : QObject) :
    objectFullyConstructed { h with currentThread := t } g obj
      = objectFullyConstructed h g obj := by
  simp only [objectFullyConstructed, filterObject_currentThread, parentKnown]

theorem objectAdded_currentThread (h : Host) (t : Option QThread) (g : Process)
    (obj : QObject) (fromCtor : Bool) :
    objectAdded { h with currentThread := t } g obj fromCtor = objectAdded h g obj fromCtor := by
  simp only [objectAdded, filterObject_currentThread, objectFullyConstructed_currentThread,
    parentKnown, parentQueued]

theorem objectAdded_of_suppressed (h : Host) (g : Process) (obj : QObject) (fromCtor : Bool)
    (hs : g.filterThread = h.thread obj) : objectAdded h g obj fromCtor = g := by
  unfold objectAdded
  split
  · rfl
  · simp [hs]

theorem objectAdded_of_aborted (h : Host) (g : Process) (obj : QObject) (fromCtor : Bool)
    (ha : g.aborted = true) : objectAdded h g obj fromCtor = g := by
  simp [objectAdded, ha]

theorem foldl_objectAdded_of_aborted (h : Host) (c : Bool) (l : List QObject) (g : Process)
    (ha : g.aborted = true) :
    l.foldl (fun acc obj => objectAdded h acc obj c) g = g := by
  induction l with
  | nil => rfl
  | cons a t ih => rw [List.foldl_cons, objectAdded_of_aborted h g a c ha, ih]

theorem run_map_add (h : Host) (c : Bool) (l : List QObject) :
    ∀ g : Process,
      run g (l.map (fun o => (h, Op.add o c))) = l.foldl (fun acc obj => objectAdded h acc obj c) g := by
  induction l with
  | nil => intro g; rfl
  | cons a t ih =>
    intro g
    simp only [List.map_cons, run, step, List.foldl_cons]
    exact ih _

theorem replayed_cons_skip (h : Host) (self o : QObject) (t : List QObject)
    (hs : h.thread o = none ∨ filterObject h (Probe.new self) o ≠ some false) :
    replayed h self (o :: t) = replayed h self t := by
  unfold replayed
  rw [List.filter_cons]
  rcases hs with hs | hs
  · simp [hs]
  · simp [hs]

theorem replayed_cons_keep (h : Host) (self o : QObject) (t : List QObject)
    (ht : h.thread o ≠ none) (hf : filterObject h (Probe.new self) o = some false) :
    replayed h self (o :: t) = o :: replayed h self t := by
  unfold replayed
  rw [List.filter_cons]
  simp [ht, hf]

/-- The replay loop of `Probe::instance` on a probe without window and with an
empty queue: if it does not abort, the buffered objects that have a thread and
are not excluded become valid, in buffer order, and each is completed at once. -/
theorem replay_spec (h : Host) (self : QObject) (ft0 : List QObject) :
    ∀ (buf v : List QObject) (e : List Notification),
      (buf.foldl (fun acc obj => objectAdded h acc obj false)
        ⟨some ⟨self, none, v, [], false⟩, none, ft0, e, false⟩).aborted = false →
      buf.foldl (fun acc obj => objectAdded h acc obj false)
          ⟨some ⟨self, none, v, [], false⟩, none, ft0, e, false⟩
        = ⟨some ⟨self, none, v ++ replayed h self buf, [], false⟩, none, ft0,
            e ++ (replayed h self buf).flatMap addedNotifications, false⟩ := by
  intro buf
  induction buf with
  | nil => intro v e _; simp [replayed]
  | cons o t ih =>
    intro v e hab
    rw [List.foldl_cons] at hab ⊢
    have hfp : filterObject h ⟨self, none, v, [], false⟩ o = filterObject h (Probe.new self) o :=
      rfl
    by_cases ht : h.thread o = none
    · have h1 : objectAdded h ⟨some ⟨self, none, v, [], false⟩, none, ft0, e, false⟩ o false
          = ⟨some ⟨self, none, v, [], false⟩, none, ft0, e, false⟩ :=
        objectAdded_of_suppressed h _ o false (by simp [ht])
      rw [h1] at hab ⊢
      rw [replayed_cons_skip h self o t (Or.inl ht)]
      exact ih v e hab
    · have hl : (⟨some ⟨self, none, v, [], false⟩, none, ft0, e, false⟩ : Process).filterThread
          ≠ h.thread o := fun hc => ht hc.symm
      -- an aborting call contradicts the assumption
      have habort :
          (objectAdded h ⟨some ⟨self, none, v, [], false⟩, none, ft0, e, false⟩ o false).aborted
            = true → False := by
        intro hg'
        rw [foldl_objectAdded_of_aborted h false t _ hg'] at hab
        rw [hab] at hg'
        cases hg'
      cases hf : filterObject h (Probe.new self) o with
      | none =>
        exact (habort (by
          unfold objectAdded
          simp only [Bool.false_eq_true, if_false, hl, hfp, hf])).elim
      | some b =>
        cases b with
        | true =>
          have h1 : objectAdded h ⟨some ⟨self, none, v, [], false⟩, none, ft0, e, false⟩ o false
              = ⟨some ⟨self, none, v, [], false⟩, none, ft0, e, false⟩ := by
            unfold objectAdded
            simp only [Bool.false_eq_true, if_false, hl, hfp, hf]
          rw [h1] at hab ⊢
          rw [replayed_cons_skip h self o t (Or.inr (by rw [hf]; simp))]
          exact ih v e hab
        | false =>
          by_cases hv : o ∈ v
          · exact (habort (by
              unfold objectAdded
              simp only [Bool.false_eq_true, if_false, hl, hfp, hf, hv, if_true])).elim
          · by_cases hk : parentKnown h ⟨self, none, v, [], false⟩ o = true
            · have h1 := objectAdded_accept_now h
                ⟨some ⟨self, none, v, [], false⟩, none, ft0, e, false⟩ o false
                ⟨self, none, v, [], false⟩ rfl rfl hl (by rw [hfp]; exact hf) hv hk
                (by cases hpo : h.parent o <;> simp [parentQueued, hpo])
              rw [h1] at hab ⊢
              rw [replayed_cons_keep h self o t ht hf]
              have := ih (v ++ [o]) (e ++ addedNotifications o) hab
              rw [this]
              simp [List.flatMap_cons, List.append_assoc]
            · exact (habort (by
                unfold objectAdded
                simp only [Bool.false_eq_true, if_false, hl, hfp, hf, hv, hk, Bool.not_false,
                  if_true])).elim

theorem foldl_objectAdded_instance (h : Host) (c : Bool) (l : List QObject) :
    ∀ (g : Process) (p : Probe), g.s_instance = some p →
      ∃ p', (l.foldl (fun acc obj => objectAdded h acc obj c) g).s_instance = some p' := by
  induction l with
  | nil => intro g p hp; exact ⟨p, hp⟩
  | cons a t ih =>
    intro g p hp
    rw [List.foldl_cons]
    obtain ⟨p', hp', -⟩ := objectAdded_members h g a c p hp
    exact ih _ p' hp'

theorem queuedObjectsFullyConstructed_spec (h : Host) (g : Process) (p : Probe)
    (ha : g.aborted = false) (hp : g.s_instance = some p)
    (ht : h.currentThread = h.thread p.self) (hnd : p.m_queuedObjects.Nodup) :
    (queuedObjectsFullyConstructed h g =
      if (p.m_queuedObjects.foldl (objectFullyConstructed h) g).aborted then
        p.m_queuedObjects.foldl (objectFullyConstructed h) g
      else
        { g with
          s_instance := some { p with
            m_validObjects := drainValid h p p.m_queuedObjects
            m_queuedObjects := [] }
          emitted := g.emitted ++ drainEmitted h p p.m_queuedObjects }) := by
  obtain ⟨l1, l2, hl, hab, heq⟩ := foldl_objectFullyConstructed_spec h p.m_queuedObjects g p ha hp
  have hd : p.m_queuedObjects.length = p.m_queuedObjects.dedup.length := by
    rw [hnd.dedup]
  unfold queuedObjectsFullyConstructed
  simp only [ha, hp, ht, hd, Bool.false_eq_true, if_false, ne_eq, not_true_eq_false]
  generalize hfold : List.foldl (objectFullyConstructed h) g p.m_queuedObjects = r at heq hab ⊢
  cases hr : r.aborted with
  | true => simp
  | false =>
    have hl2 := hab hr
    subst hl2
    simp only [List.append_nil] at hl
    rw [← hl] at heq
    simp only [Bool.false_eq_true, if_false]
    rw [heq, hr]

theorem probeInstance_of_aborted (h : Host) (g : Process) (qApp : Bool) (self : QObject)
    (ha : g.aborted = true) : probeInstance h g qApp self = g := by
  simp [probeInstance, ha]

theorem probeInstance_of_initialized (h : Host) (g : Process) (qApp : Bool) (self : QObject)
    (p : Probe) (hp : g.s_instance = some p) : probeInstance h g qApp self = g := by
  unfold probeInstance
  simp only [hp]
  split
  · rfl
  · split <;> rfl

/-- The constructing call of `Probe::instance`, as a fold of `objectAdded` over
the buffer. -/
theorem probeInstance_constructs (h : Host) (g : Process) (self : QObject)
    (halive : g.aborted = false) (hnone : g.s_instance = none) :
    probeInstance h g true self =
      (if (g.s_addedBeforeProbeInsertion.foldl (fun acc o => objectAdded h acc o false)
            ⟨some ⟨self, none, [], [], false⟩, none, g.s_addedBeforeProbeInsertion, g.emitted,
              false⟩).aborted then
        g.s_addedBeforeProbeInsertion.foldl (fun acc o => objectAdded h acc o false)
          ⟨some ⟨self, none, [], [], false⟩, none, g.s_addedBeforeProbeInsertion, g.emitted,
            false⟩
      else
        { g.s_addedBeforeProbeInsertion.foldl (fun acc o => objectAdded h acc o false)
            ⟨some ⟨self, none, [], [], false⟩, none, g.s_addedBeforeProbeInsertion, g.emitted,
              false⟩ with
          s_addedBeforeProbeInsertion := [] }) := by
  unfold probeInstance
  simp only [halive, hnone, objectAddedDefaultFromCtor, Probe.new, Bool.false_eq_true, if_false,
    Bool.not_true]

/-! ## Touch points on a data stream -/

/-- The values that `operator<<` writes for one touch point. -/
theorem writeTouchPoint_eq (s : QDataStream) (p : TouchPoint) :
    writeTouchPoint s p = s ++
      [.int32 p.id, .int32 p.state, .rectF p.rect, .rectF p.sceneRect, .rectF p.screenRect,
       .pointF p.normalizedPos, .pointF p.startPos, .pointF p.startScenePos,
       .pointF p.startScreenPos, .pointF p.startNormalizedPos, .pointF p.lastPos,
       .pointF p.lastScenePos, .pointF p.lastScreenPos, .pointF p.lastNormalizedPos,
       .real p.pressure, .vector2D p.velocity, .int32 p.flags,
       .pointFVector p.rawScreenPositions] := by
  simp [writeTouchPoint, writeFlags]

theorem readTouchPoint_writeTouchPoint (p : TouchPoint) (rest : QDataStream) :
    readTouchPoint (writeTouchPoint [] p ++ rest) = (rest, p) := by
  rw [writeTouchPoint_eq]
  simp [readTouchPoint, setPointValue, readInt32, readFlags, readRectF, readPointF, readReal,
    readVector2D, readPointFVector, TouchPoint.default]

theorem foldl_writeTouchPoint (points : List TouchPoint) :
    ∀ s : QDataStream,
      points.foldl writeTouchPoint s = s ++ points.flatMap (writeTouchPoint []) := by
  induction points with
  | nil => intro s; simp
  | cons p t ih =>
    intro s
    rw [List.foldl_cons, ih, List.flatMap_cons, writeTouchPoint_eq s p, writeTouchPoint_eq [] p]
    simp

theorem readTouchPointsLoop_flatMap (points : List TouchPoint) :
    ∀ (existing : List TouchPoint) (rest : QDataStream),
      readTouchPointsLoop points.length (points.flatMap (writeTouchPoint []) ++ rest) existing
        = (rest, existing ++ points) := by
  induction points with
  | nil => intro existing rest; simp [readTouchPointsLoop]
  | cons p t ih =>
    intro existing rest
    rw [List.flatMap_cons, List.length_cons, List.append_assoc]
    simp only [readTouchPointsLoop, readTouchPoint_writeTouchPoint]
    rw [ih]
    simp

/-! ## Claims -/

/-- C1: after every sequence of calls (`objectAdded`, `objectRemoved`, the queue
drain, and also child events, `setWindow` and changes of the listener marker)
made on a newly constructed probe, in whatever state the host is at each call,
every object of `m_queuedObjects` is in `m_validObjects`, as long as no
assertion has aborted the process. -/
theorem C1_queued_subset_valid (self : QObject) (filterThread : Option QThread)
    (buffer : List QObject) (calls : List (Host × Op)) (p : Probe)
    (halive : (run (Process.initial self filterThread buffer) calls).aborted = false)
    (hp : (run (Process.initial self filterThread buffer) calls).s_instance = some p) :
    ∀ o ∈ p.m_queuedObjects, o ∈ p.m_validObjects :=
  ((run_consistent calls _ (initial_consistent self filterThread buffer)) halive p hp).queued_valid

/-- Witness for C1: after `add(1, false)` and `add(2, true)` on a new probe the
queue is `[2]`, the valid set is `[1, 2]`, and the inclusion holds. -/
theorem C1_queued_subset_valid_witness :
    (run (Process.initial 100 none []) [(sampleHost, .add 1 false), (sampleHost, .add 2 true)]).aborted
        = false ∧
      (run (Process.initial 100 none []) [(sampleHost, .add 1 false), (sampleHost, .add 2 true)]).s_instance
        = some ⟨100, none, [1, 2], [2], true⟩ ∧
      ∀ o ∈ [2], o ∈ [1, 2] :=
  ⟨by decide, by decide,
    C1_queued_subset_valid 100 none [] [(sampleHost, .add 1 false), (sampleHost, .add 2 true)]
      ⟨100, none, [1, 2], [2], true⟩ (by decide) (by decide)⟩

/-- C2, evaluated at the failing input: objects 1, 3 (child of 1) and 4 (child of
3) are added from their constructors, then `objectRemoved(3)` is called — the
call that `Probe::eventFilter` makes for the `ChildRemoved` event when object 3
is detached from object 1.  Object 4 is then still in `m_validObjects` (and
queued) while its parent, object 3, is not; and the assertion of
`objectFullyConstructed` that the parent is known fails in the next drain. -/
theorem C2_child_valid_without_parent :
    (run (Process.initial 100 none [])
      [(hostBeforeReparent, .add 1 true), (hostBeforeReparent, .add 3 true),
       (hostBeforeReparent, .add 4 true), (hostBeforeReparent, .remove 3)]).aborted = false ∧
    (run (Process.initial 100 none [])
      [(hostBeforeReparent, .add 1 true), (hostBeforeReparent, .add 3 true),
       (hostBeforeReparent, .add 4 true), (hostBeforeReparent, .remove 3)]).s_instance
        = some ⟨100, none, [1, 4], [1, 4], true⟩ ∧
    hostBeforeReparent.parent 4 = some 3 ∧ 4 ∈ [1, 4] ∧ 3 ∉ [1, 4] ∧
    run (Process.initial 100 none [])
      [(hostBeforeReparent, .add 1 true), (hostBeforeReparent, .add 3 true),
       (hostBeforeReparent, .add 4 true), (hostBeforeReparent, .childEvent 1 3 false)]
      = run (Process.initial 100 none [])
        [(hostBeforeReparent, .add 1 true), (hostBeforeReparent, .add 3 true),
         (hostBeforeReparent, .add 4 true), (hostBeforeReparent, .remove 3)] ∧
    (run (Process.initial 100 none [])
      [(hostBeforeReparent, .add 1 true), (hostBeforeReparent, .add 3 true),
       (hostBeforeReparent, .add 4 true), (hostBeforeReparent, .remove 3),
       (hostBeforeReparent, .drain)]).aborted = true := by
  decide

/-- C3: whatever the state of an initialized registry (so after every sequence of
calls) and whatever the call — `objectAdded`, `objectRemoved`, a child event, the
drain — every "added" notification the call issues (`objectAdded` of the list,
tree or tool model, signal `objectCreated`) is for an object that `filterObject`
does not exclude in the host state of that call; and a queued object that the
filter excludes when the queue is drained is evicted from `m_validObjects` by a
drain that completes. -/
theorem C3_excluded_never_reported (h : Host) (g : Process) (op : Op) (p : Probe)
    (hp : g.s_instance = some p) :
    (∃ d, (step h g op).emitted = g.emitted ++ d ∧
      ∀ n ∈ d, ∀ x, n.addedObject = some x → filterObject h p x = some false) ∧
    (∀ obj ∈ p.m_queuedObjects, filterObject h p obj = some true →
      (step h g .drain).aborted = false →
      ∃ p', (step h g .drain).s_instance = some p' ∧ obj ∉ p'.m_validObjects) := by
  constructor
  · obtain ⟨d, hd, hs⟩ := step_emitted h g op p hp
    exact ⟨d, hd, fun n hn x hx => mayEmit_added_not_filtered h p op n x (hs.subset hn) hx⟩
  · intro obj hq hf hab
    have ha : g.aborted = false := by
      cases hg : g.aborted with
      | false => rfl
      | true =>
        rw [step_of_aborted h g .drain hg] at hab
        rw [hab] at hg
        exact hg.symm
    obtain ⟨l1, l2, p', ab, -, heq, -, -, hok⟩ := queueTimerTimeout_spec h g p ha hp
    simp only [step] at hab ⊢
    rw [heq] at hab ⊢
    obtain ⟨-, -, -, hp'⟩ := hok hab
    refine ⟨p', rfl, ?_⟩
    rw [hp']
    simp [drainValid, hq, hf]

/-- Witness for C3: object 1 was queued while it had no parent; when the queue is
drained it has become a child of the probe, so it is evicted and nothing is
reported. -/
theorem C3_excluded_never_reported_witness :
    sampleQueued.s_instance = some ⟨100, none, [1], [1], true⟩ ∧
      ((∃ d, (step adoptedHost sampleQueued .drain).emitted = sampleQueued.emitted ++ d ∧
        ∀ n ∈ d, ∀ x, n.addedObject = some x →
          filterObject adoptedHost ⟨100, none, [1], [1], true⟩ x = some false) ∧
      (∀ obj ∈ [1], filterObject adoptedHost ⟨100, none, [1], [1], true⟩ obj = some true →
        (step adoptedHost sampleQueued .drain).aborted = false →
        ∃ p', (step adoptedHost sampleQueued .drain).s_instance = some p' ∧
          obj ∉ p'.m_validObjects)) :=
  ⟨by decide,
    C3_excluded_never_reported adoptedHost sampleQueued .drain ⟨100, none, [1], [1], true⟩
      (by decide)⟩

/-- C4, evaluated at the failing input: objects 1, 2, 3 (child of 1) and 4 (child
of 3) are constructed, each child event preceding the constructor hook; then
object 3 is moved from parent 1 to parent 2, which the event filter sees as a
`ChildRemoved` for 3 at object 1 followed by a `ChildAdded` for 3 at object 2.
The drain then reports object 4 before its parent, object 3, which has not been
reported before. -/
theorem C4_child_reported_before_parent :
    (run (Process.initial 100 none [])
      [(hostBeforeReparent, .add 1 true), (hostBeforeReparent, .add 2 true),
       (hostBeforeReparent, .childEvent 1 3 true), (hostBeforeReparent, .add 3 true),
       (hostBeforeReparent, .childEvent 3 4 true), (hostBeforeReparent, .add 4 true),
       (hostBeforeReparent, .childEvent 1 3 false), (hostAfterReparent, .childEvent 2 3 true),
       (hostAfterReparent, .drain)]).emitted
      = removedNotifications 3 ++ addedNotifications 1 ++ addedNotifications 2 ++
          addedNotifications 4 ++ addedNotifications 3 ∧
    (run (Process.initial 100 none [])
      [(hostBeforeReparent, .add 1 true), (hostBeforeReparent, .add 2 true),
       (hostBeforeReparent, .childEvent 1 3 true), (hostBeforeReparent, .add 3 true),
       (hostBeforeReparent, .childEvent 3 4 true), (hostBeforeReparent, .add 4 true),
       (hostBeforeReparent, .childEvent 1 3 false), (hostAfterReparent, .childEvent 2 3 true),
       (hostAfterReparent, .drain)]).aborted = false ∧
    hostAfterReparent.parent 4 = some 3 := by
  decide

/-- C5: in a reachable state of an initialized registry, for an object that is
not suppressed by the listener thread, not excluded, not yet valid and whose
parent is null or valid: the second of two `objectAdded(obj, true)` calls changes
nothing, and when the following drain completes, the three calls together have
emitted `objectCreated(obj)` exactly once. -/
theorem C5_double_add_single_report (h : Host) (g : Process) (p : Probe) (obj : QObject)
    (hr : Reachable g) (hp : g.s_instance = some p)
    (hlistener : g.filterThread ≠ h.thread obj)
    (hfilter : filterObject h p obj = some false) (hnew : obj ∉ p.m_validObjects)
    (hparent : parentKnown h p obj = true)
    (hdrain : (run g [(h, .add obj true), (h, .add obj true), (h, .drain)]).aborted = false) :
    objectAdded h (objectAdded h g obj true) obj true = objectAdded h g obj true ∧
      ∃ d, (run g [(h, .add obj true), (h, .add obj true), (h, .drain)]).emitted
          = g.emitted ++ d ∧
        d.count (.objectCreated obj) = 1 := by
  have halive : g.aborted = false := by
    cases hg : g.aborted with
    | false => rfl
    | true =>
      rw [run_of_aborted _ g hg] at hdrain
      rw [hdrain] at hg
      exact hg.symm
  have hpc := hr.consistent halive p hp
  have hq : obj ∉ p.m_queuedObjects := fun hq => hnew (hpc.queued_valid obj hq)
  have h1 := objectAdded_accept_queue h g obj true p halive hp hlistener hfilter hnew hparent hq
    rfl
  have h2 : objectAdded h (objectAdded h g obj true) obj true = objectAdded h g obj true := by
    rw [h1]
    exact objectAdded_known h _ obj _ rfl (by simpa using hfilter) (by simp)
  refine ⟨h2, ?_⟩
  simp only [run, step] at hdrain ⊢
  rw [h2] at hdrain ⊢
  rw [h1] at hdrain ⊢
  obtain ⟨l1, l2, p', ab, hl, heq, -, -, hok⟩ := queueTimerTimeout_spec h
    { g with s_instance := some { p with
        m_validObjects := p.m_validObjects ++ [obj]
        m_queuedObjects := p.m_queuedObjects ++ [obj]
        m_queueTimerActive := true } } _ halive rfl
  rw [heq] at hdrain ⊢
  obtain ⟨hl2, -, hnd, -⟩ := hok hdrain
  subst hl2
  simp only [List.append_nil] at hl
  refine ⟨_, rfl, ?_⟩
  rw [← hl]
  unfold drainEmitted
  rw [count_objectCreated_flatMap]
  apply List.count_eq_one_of_mem
  · exact hnd.filter _
  · simp [hfilter]

/-- Witness for C5: on a new probe, two `objectAdded(1, true)` calls followed by
a drain emit `objectCreated(1)` once. -/
theorem C5_double_add_single_report_witness :
    Reachable (Process.initial 100 none []) ∧
      (run (Process.initial 100 none [])
        [(sampleHost, .add 1 true), (sampleHost, .add 1 true), (sampleHost, .drain)]).aborted
          = false ∧
      (objectAdded sampleHost (objectAdded sampleHost (Process.initial 100 none []) 1 true) 1 true
          = objectAdded sampleHost (Process.initial 100 none []) 1 true ∧
        ∃ d, (run (Process.initial 100 none [])
            [(sampleHost, .add 1 true), (sampleHost, .add 1 true), (sampleHost, .drain)]).emitted
              = (Process.initial 100 none []).emitted ++ d ∧
          d.count (.objectCreated 1) = 1) :=
  ⟨⟨100, none, [], [], rfl⟩, by decide,
    C5_double_add_single_report sampleHost (Process.initial 100 none []) (Probe.new 100) 1
      ⟨100, none, [], [], rfl⟩ rfl (by decide) (by decide) (by decide) (by decide) (by decide)⟩

/-- C6: in a reachable state of an initialized registry, `objectAdded(obj, true)`
followed by `objectRemoved(obj)` and then by a drain — each in whatever state the
host then is — emits no "added" notification for `obj`; the drain emits nothing
that names `obj`; after the removal `obj` is neither in `m_validObjects` nor in
`m_queuedObjects`; and if `obj` was the only queued object the queue is empty
and the timer stopped. -/
theorem C6_removed_before_completion (h1 h2 h3 : Host) (g : Process) (p : Probe)
    (obj : QObject) (hr : Reachable g) (hp : g.s_instance = some p)
    (hadd : (objectAdded h1 g obj true).aborted = false) :
    (∃ d, (queueTimerTimeout h3 (objectRemoved h2 (objectAdded h1 g obj true) obj)).emitted
        = g.emitted ++ d ∧ ∀ n ∈ d, n.addedObject ≠ some obj) ∧
    (∃ d, (queueTimerTimeout h3 (objectRemoved h2 (objectAdded h1 g obj true) obj)).emitted
        = (objectRemoved h2 (objectAdded h1 g obj true) obj).emitted ++ d ∧
      ∀ n ∈ d, n.mentions obj = false) ∧
    (∃ p1 p2, (objectAdded h1 g obj true).s_instance = some p1 ∧
      (objectRemoved h2 (objectAdded h1 g obj true) obj).s_instance = some p2 ∧
      obj ∉ p2.m_validObjects ∧ obj ∉ p2.m_queuedObjects ∧
      (p1.m_queuedObjects = [obj] →
        p2.m_queuedObjects = [] ∧ p2.m_queueTimerActive = false)) := by
  have hc1 : (objectAdded h1 g obj true).Consistent :=
    objectAdded_consistent h1 g obj true hr.consistent
  obtain ⟨p1, hp1, -, -, -, -⟩ := objectAdded_members h1 g obj true p hp
  have hpc1 := hc1 hadd p1 hp1
  obtain ⟨d1, hd1, hs1⟩ := objectAdded_emitted h1 g obj true p hp
  have hd1nil : d1 = [] := by
    have : mayEmit h1 p (.add obj true) = [] := by simp [mayEmit]
    rw [this] at hs1
    exact List.eq_nil_of_sublist_nil hs1
  subst hd1nil
  obtain ⟨d2, hd2, hs2⟩ := objectRemoved_emitted h2 (objectAdded h1 g obj true) obj p1 hp1
  -- the registry members after the removal
  have hp2 : ∃ p2, (objectRemoved h2 (objectAdded h1 g obj true) obj).s_instance = some p2 ∧
      obj ∉ p2.m_validObjects ∧ obj ∉ p2.m_queuedObjects ∧
      (p1.m_queuedObjects = [obj] →
        p2.m_queuedObjects = [] ∧ p2.m_queueTimerActive = false) := by
    by_cases hv : obj ∈ p1.m_validObjects
    · obtain ⟨d, ab, heq, -⟩ := objectRemoved_shape h2 _ obj p1 hadd hp1 hv
      rw [heq]
      refine ⟨p1.erased obj, rfl, ?_, ?_, ?_⟩
      · intro hx
        exact (QSet.mem_remove.mp hx).2 rfl
      · intro hx
        simp only [Probe.erased] at hx
        rw [hpc1.queued_nodup.mem_erase_iff] at hx
        exact hx.1 rfl
      · intro hq
        simp [Probe.erased, hq]
    · rw [objectRemoved_of_not_tracked h2 _ obj p1 hp1 hv]
      refine ⟨p1, hp1, hv, fun hq => hv (hpc1.queued_valid obj hq), ?_⟩
      intro hq
      exact absurd (hpc1.queued_valid obj (by rw [hq]; simp)) hv
  obtain ⟨p2, hp2, hnv, hnq, hone⟩ := hp2
  obtain ⟨d3, hd3, hs3⟩ := queueTimerTimeout_emitted h3 _ p2 hp2
  have hd3m : ∀ n ∈ d3, ∀ x, (n.mentions x = true ∨ n.addedObject = some x) → x ≠ obj := by
    intro n hn x hx
    obtain ⟨o, -, hov, -, hno⟩ := mem_drainEmitted (hs3.subset hn)
    have hxo : x = o := by
      rcases hx with hx | hx
      · exact mentions_of_mem_addedNotifications hno hx
      · exact addedObject_of_mem_addedNotifications hno hx
    rw [hxo]
    rintro rfl
    exact hnv hov
  refine ⟨⟨d2 ++ d3, ?_, ?_⟩, ⟨d3, hd3, ?_⟩, ⟨p1, p2, hp1, hp2, hnv, hnq, hone⟩⟩
  · rw [hd3, hd2, hd1, List.append_nil, List.append_assoc]
  · intro n hn hx
    rcases List.mem_append.mp hn with hn | hn
    · have hmem := hs2.subset hn
      simp only [mayEmit] at hmem
      split at hmem
      · rw [addedObject_of_mem_removedNotifications hmem] at hx
        cases hx
      · simp at hmem
    · exact hd3m n hn obj (Or.inr hx) rfl
  · intro n hn
    by_contra hm
    exact hd3m n hn obj (Or.inl (by simpa using hm)) rfl

/-- Witness for C6: on a new probe, `objectAdded(1, true)`, `objectRemoved(1)` and
a drain. -/
theorem C6_removed_before_completion_witness :
    Reachable (Process.initial 100 none []) ∧
      (objectAdded sampleHost (Process.initial 100 none []) 1 true).aborted = false ∧
      (queueTimerTimeout sampleHost
        (objectRemoved sampleHost (objectAdded sampleHost (Process.initial 100 none []) 1 true)
          1)).emitted = removedNotifications 1 ∧
      ∃ p1 p2, (objectAdded sampleHost (Process.initial 100 none []) 1 true).s_instance
          = some p1 ∧
        (objectRemoved sampleHost (objectAdded sampleHost (Process.initial 100 none []) 1 true)
          1).s_instance = some p2 ∧
        1 ∉ p2.m_validObjects ∧ 1 ∉ p2.m_queuedObjects ∧
        (p1.m_queuedObjects = [1] →
          p2.m_queuedObjects = [] ∧ p2.m_queueTimerActive = false) :=
  ⟨⟨100, none, [], [], rfl⟩, by decide, by decide,
    (C6_removed_before_completion sampleHost sampleHost sampleHost (Process.initial 100 none [])
      (Probe.new 100) 1 ⟨100, none, [], [], rfl⟩ rfl (by decide)).2.2⟩

/-- C7: an accepted `objectAdded(obj, fromCtor)` — registry initialized and
alive, the call not suppressed by the listener thread, `obj` not excluded, not
yet valid, its parent null or valid — inserts `obj` into `m_validObjects`.  If
`fromCtor` is set or the parent is queued, `obj` is appended to
`m_queuedObjects`, the timer is started and nothing is emitted; otherwise `obj`
is not queued and the completion step runs at once, emitting the three model
calls `objectAdded(obj)` and `objectCreated(obj)`. -/
theorem C7_objectAdded_accepted (h : Host) (g : Process) (obj : QObject) (fromCtor : Bool)
    (p : Probe) (hr : Reachable g) (halive : g.aborted = false)
    (hp : g.s_instance = some p) (hlistener : g.filterThread ≠ h.thread obj)
    (hfilter : filterObject h p obj = some false) (hnew : obj ∉ p.m_validObjects)
    (hparent : parentKnown h p obj = true) :
    (fromCtor = true ∨ parentQueued h p obj = true →
      objectAdded h g obj fromCtor =
        { g with s_instance := some { p with
            m_validObjects := p.m_validObjects ++ [obj]
            m_queuedObjects := p.m_queuedObjects ++ [obj]
            m_queueTimerActive := true } }) ∧
    (fromCtor = false ∧ parentQueued h p obj = false →
      obj ∉ p.m_queuedObjects ∧
      objectAdded h g obj fromCtor =
        { g with s_instance := some { p with m_validObjects := p.m_validObjects ++ [obj] }
                 emitted := g.emitted ++
                   [.listObjectAdded obj, .treeObjectAdded obj, .toolObjectAdded obj,
                    .objectCreated obj] }) := by
  have hq : obj ∉ p.m_queuedObjects := fun hq =>
    hnew ((hr.consistent halive p hp).queued_valid obj hq)
  constructor
  · intro hc
    exact objectAdded_accept_queue h g obj fromCtor p halive hp hlistener hfilter hnew hparent hq
      (by rcases hc with hc | hc <;> simp [hc])
  · rintro ⟨hc1, hc2⟩
    exact ⟨hq, objectAdded_accept_now h g obj fromCtor p halive hp hlistener hfilter hnew
      hparent (by simp [hc1, hc2])⟩

/-- Witness for C7: with object 1 valid and queued, `objectAdded(2, false)` for
its child 2 is accepted and deferred. -/
theorem C7_objectAdded_accepted_witness :
    Reachable sampleQueued ∧ sampleQueued.aborted = false ∧
      sampleQueued.s_instance = some ⟨100, none, [1], [1], true⟩ ∧
      sampleQueued.filterThread ≠ sampleHost.thread 2 ∧
      filterObject sampleHost ⟨100, none, [1], [1], true⟩ 2 = some false ∧
      2 ∉ [1] ∧ parentKnown sampleHost ⟨100, none, [1], [1], true⟩ 2 = true ∧
      objectAdded sampleHost sampleQueued 2 false =
        { sampleQueued with s_instance := some ⟨100, none, [1, 2], [1, 2], true⟩ } :=
  ⟨⟨100, none, [], _, rfl⟩, by decide, by decide, by decide, by decide, by decide, by decide,
    (C7_objectAdded_accepted sampleHost sampleQueued 2 false ⟨100, none, [1], [1], true⟩
      ⟨100, none, [], _, rfl⟩ (by decide) (by decide) (by decide) (by decide) (by decide)
      (by decide)).1 (Or.inr (by decide))⟩

/-- C8: on an initialized registry `objectRemoved(obj)` for an object that is
not in `m_validObjects` changes nothing at all — the registry members, the
timer and the trace of notifications stay as they are.  Hence an object that
the filter excludes at every call of a sequence made on a new probe is named by
no notification of that sequence. -/
theorem C8_remove_untracked_noop (h : Host) (g : Process) (p : Probe) (obj : QObject)
    (hp : g.s_instance = some p) (hv : obj ∉ p.m_validObjects)
    (self : QObject) (filterThread : Option QThread) (buffer : List QObject)
    (calls : List (Host × Op))
    (hex : excludedThroughout obj (Process.initial self filterThread buffer) calls = true) :
    objectRemoved h g obj = g ∧
      ∀ n ∈ (run (Process.initial self filterThread buffer) calls).emitted,
        n.mentions obj = false := by
  refine ⟨objectRemoved_of_not_tracked h g obj p hp hv, ?_⟩
  obtain ⟨d, hd, hm⟩ := run_excluded obj calls (Process.initial self filterThread buffer) rfl
    (by
      intro q hq
      simp only [Process.initial, Option.some.injEq] at hq
      subst hq
      simp [Probe.new])
    hex
  rw [hd]
  simpa [Process.initial] using hm

/-- Witness for C8: object 9 is a child of the probe.  Removing it from a
registry that tracks object 1 changes nothing, and a sequence of calls about
objects 9, 1 and 2 emits nothing that names object 9. -/
theorem C8_remove_untracked_noop_witness :
    sampleTracked.s_instance = some ⟨100, none, [1], [], false⟩ ∧ 9 ∉ [1] ∧
      excludedThroughout 9 (Process.initial 100 none [])
        [(toolHost, .add 9 true), (toolHost, .add 1 false), (toolHost, .childEvent 100 9 true),
         (toolHost, .add 2 true), (toolHost, .remove 9), (toolHost, .drain),
         (toolHost, .remove 1)] = true ∧
      (objectRemoved toolHost sampleTracked 9 = sampleTracked ∧
        ∀ n ∈ (run (Process.initial 100 none [])
            [(toolHost, .add 9 true), (toolHost, .add 1 false),
             (toolHost, .childEvent 100 9 true), (toolHost, .add 2 true),
             (toolHost, .remove 9), (toolHost, .drain), (toolHost, .remove 1)]).emitted,
          n.mentions 9 = false) :=
  ⟨by decide, by decide, by decide,
    C8_remove_untracked_noop toolHost sampleTracked ⟨100, none, [1], [], false⟩ 9
      (by decide) (by decide) 100 none [] _ (by decide)⟩

/-- Counterexample to C9 as stated: object 1 is tracked and has since become a child
of the probe, so the filter excludes it.  `objectRemoved(1)` erases it and emits
`objectDestroyed(1)`, but both cascading `connectionRemoved` calls are dropped
by the filter guard: the connection model is told nothing. -/
theorem C9_cascade_dropped_counterexample :
    Reachable sampleTracked ∧ sampleTracked.aborted = false ∧
      sampleTracked.s_instance = some ⟨100, none, [1], [], false⟩ ∧
      (objectRemoved adoptedHost sampleTracked 1).emitted
        = sampleTracked.emitted ++
          [.listObjectRemoved 1, .treeObjectRemoved 1, .objectDestroyed 1] ∧
      Notification.modelConnectionRemoved (some 1) none none none
        ∉ (objectRemoved adoptedHost sampleTracked 1).emitted ∧
      Notification.modelConnectionRemoved none none (some 1) none
        ∉ (objectRemoved adoptedHost sampleTracked 1).emitted :=
  ⟨⟨100, none, [], _, rfl⟩, by decide, by decide, by decide, by decide, by decide⟩

/-- C9, amended: in a reachable, live state of an initialized registry,
`objectRemoved(obj)` for an object in `m_validObjects` erases it from
`m_validObjects` and from `m_queuedObjects` (the other members keep their
order), stops the timer if the queue is then empty, calls `objectRemoved(obj)`
on the list and tree models and emits `objectDestroyed(obj)` once.  The two
cascading `connectionRemoved` calls reach the connection model when the calling
thread is not the listener thread and the filter does not exclude `obj`; when
the calling thread is the listener thread or the filter excludes `obj`, they are
dropped. -/
theorem C9_objectRemoved_tracked (h : Host) (g : Process) (p : Probe) (obj : QObject)
    (hr : Reachable g) (halive : g.aborted = false) (hp : g.s_instance = some p)
    (hv : obj ∈ p.m_validObjects) :
    (g.filterThread ≠ h.currentThread ∧ filterObject h p obj = some false →
      objectRemoved h g obj =
        { g with s_instance := some (p.erased obj)
                 emitted := g.emitted ++
                   [.listObjectRemoved obj, .treeObjectRemoved obj,
                    .modelConnectionRemoved (some obj) none none none,
                    .modelConnectionRemoved none none (some obj) none,
                    .objectDestroyed obj] }) ∧
    (g.filterThread = h.currentThread ∨ filterObject h p obj = some true →
      objectRemoved h g obj =
        { g with s_instance := some (p.erased obj)
                 emitted := g.emitted ++
                   [.listObjectRemoved obj, .treeObjectRemoved obj, .objectDestroyed obj] }) ∧
    (p.erased obj).m_validObjects = p.m_validObjects.filter (fun x => x != obj) ∧
    (p.erased obj).m_queuedObjects = p.m_queuedObjects.filter (fun x => x != obj) ∧
    obj ∉ (p.erased obj).m_validObjects ∧ obj ∉ (p.erased obj).m_queuedObjects ∧
    ((p.erased obj).m_queuedObjects = [] → (p.erased obj).m_queueTimerActive = false) := by
  have hpc := hr.consistent halive p hp
  refine ⟨?_, ?_, rfl, ?_, ?_, ?_, ?_⟩
  · rintro ⟨ht, hf⟩
    unfold objectRemoved connectionRemoved
    simp [halive, hp, hv, ht, hf, Probe.erased]
  · intro hc
    unfold objectRemoved connectionRemoved
    by_cases ht : g.filterThread = h.currentThread
    · simp [halive, hp, hv, ht, Probe.erased]
    · have hf : filterObject h p obj = some true := by
        rcases hc with hc | hc
        · exact absurd hc ht
        · exact hc
      simp [halive, hp, hv, ht, hf, Probe.erased]
  · simp only [Probe.erased]
    exact hpc.queued_nodup.erase_eq_filter obj
  · intro hx
    exact (QSet.mem_remove.mp hx).2 rfl
  · intro hx
    simp only [Probe.erased] at hx
    rw [hpc.queued_nodup.mem_erase_iff] at hx
    exact hx.1 rfl
  · intro hq
    simp only [Probe.erased] at hq ⊢
    simp [hq]

/-- Witness for C9: object 1 is tracked and not excluded in `sampleHost`; removing
it forwards both cascading calls. -/
theorem C9_objectRemoved_tracked_witness :
    Reachable sampleTracked ∧ sampleTracked.aborted = false ∧
      sampleTracked.s_instance = some ⟨100, none, [1], [], false⟩ ∧ 1 ∈ [1] ∧
      sampleTracked.filterThread ≠ sampleHost.currentThread ∧
      filterObject sampleHost ⟨100, none, [1], [], false⟩ 1 = some false ∧
      objectRemoved sampleHost sampleTracked 1 =
        { sampleTracked with
          s_instance := some ⟨100, none, [], [], false⟩
          emitted := sampleTracked.emitted ++
            [.listObjectRemoved 1, .treeObjectRemoved 1,
             .modelConnectionRemoved (some 1) none none none,
             .modelConnectionRemoved none none (some 1) none,
             .objectDestroyed 1] } :=
  ⟨⟨100, none, [], _, rfl⟩, by decide, by decide, by decide, by decide, by decide,
    (C9_objectRemoved_tracked sampleHost sampleTracked ⟨100, none, [1], [], false⟩ 1
      ⟨100, none, [], _, rfl⟩ (by decide) (by decide) (by decide)).1 ⟨by decide, by decide⟩⟩

/-- C10: on a finite, acyclic parent chain (it ends within `n` steps, and the
stack holds `n` frames) `filterObject` returns; the result is `false` when the
object's thread differs from the probe's, and otherwise `true` exactly when the
object is the probe, is the probe's window, or is a strict descendant of either.
No object is a strict descendant of itself, and a null window excludes nothing. -/
theorem C10_filterObject_spec (h : Host) (p : Probe) (obj : QObject) (n : Nat)
    (hn : nthAncestor h n obj = none) (hs : n ≤ h.stack) :
    (∃ b, filterObject h p obj = some b ∧
      (h.thread obj ≠ h.thread p.self → b = false) ∧
      (h.thread obj = h.thread p.self →
        (b = true ↔ obj = p.self ∨ some obj = p.m_window ∨
          StrictDescendant h (some p.self) obj ∨ StrictDescendant h p.m_window obj))) ∧
    (descendantOf h (some obj) h.stack obj = some false ∧
      ¬ StrictDescendant h (some obj) obj) ∧
    (descendantOf h none h.stack obj = some false ∧ ¬ StrictDescendant h none obj ∧
      (p.m_window = none →
        (filterObject h p obj = some true ↔
          h.thread obj = h.thread p.self ∧
            (obj = p.self ∨ StrictDescendant h (some p.self) obj)))) := by
  obtain ⟨b1, hb1, hiff1⟩ := descendantOf_spec h (some p.self) n h.stack obj hn hs
  obtain ⟨b2, hb2, hiff2⟩ := descendantOf_spec h p.m_window n h.stack obj hn hs
  obtain ⟨b3, hb3, hiff3⟩ := descendantOf_spec h (some obj) n h.stack obj hn hs
  obtain ⟨b4, hb4, hiff4⟩ := descendantOf_spec h none n h.stack obj hn hs
  have hself := not_strictDescendant_self h obj n hn
  have hnull := not_strictDescendant_null h obj
  have hb3f : b3 = false := by
    cases b3 with
    | false => rfl
    | true => exact absurd (hiff3.mp rfl) hself
  have hb4f : b4 = false := by
    cases b4 with
    | false => rfl
    | true => exact absurd (hiff4.mp rfl) hnull
  have main : ∃ b, filterObject h p obj = some b ∧
      (h.thread obj ≠ h.thread p.self → b = false) ∧
      (h.thread obj = h.thread p.self →
        (b = true ↔ obj = p.self ∨ some obj = p.m_window ∨
          StrictDescendant h (some p.self) obj ∨ StrictDescendant h p.m_window obj)) := by
    by_cases ht : h.thread obj = h.thread p.self
    · by_cases h1 : obj = p.self
      · exact ⟨true, by simp [filterObject, ht, h1], fun hne => absurd ht hne,
          fun _ => ⟨fun _ => Or.inl h1, fun _ => rfl⟩⟩
      · by_cases h2 : some obj = p.m_window
        · exact ⟨true, by simp [filterObject, ht, h1, h2], fun hne => absurd ht hne,
            fun _ => ⟨fun _ => Or.inr (Or.inl h2), fun _ => rfl⟩⟩
        · cases b1 with
          | true =>
            exact ⟨true, by simp [filterObject, ht, h1, h2, hb1], fun hne => absurd ht hne,
              fun _ => ⟨fun _ => Or.inr (Or.inr (Or.inl (hiff1.mp rfl))), fun _ => rfl⟩⟩
          | false =>
            refine ⟨b2, by simp [filterObject, ht, h1, h2, hb1, hb2],
              fun hne => absurd ht hne, fun _ => ?_⟩
            rw [hiff2]
            constructor
            · intro hd; exact Or.inr (Or.inr (Or.inr hd))
            · rintro (h' | h' | h' | h')
              · exact absurd h' h1
              · exact absurd h' h2
              · exact absurd (hiff1.mpr h') (by simp)
              · exact h'
    · exact ⟨false, by simp [filterObject, ht], fun _ => rfl, fun he => absurd he ht⟩
  refine ⟨main, ⟨by rw [hb3, hb3f], hself⟩, by rw [hb4, hb4f], hnull, ?_⟩
  intro hw
  obtain ⟨b, hb, hne, heq⟩ := main
  rw [hb]
  constructor
  · intro hbt
    have hbt' : b = true := by simpa using hbt
    have ht : h.thread obj = h.thread p.self := by
      by_contra hc
      rw [hne hc] at hbt'
      cases hbt'
    refine ⟨ht, ?_⟩
    rcases (heq ht).mp hbt' with h' | h' | h' | h'
    · exact Or.inl h'
    · rw [hw] at h'; cases h'
    · exact Or.inr h'
    · rw [hw] at h'; exact absurd h' hnull
  · rintro ⟨ht, h'⟩
    have : b = true := (heq ht).mpr (by
      rcases h' with h' | h'
      · exact Or.inl h'
      · exact Or.inr (Or.inr (Or.inl h')))
    rw [this]

/-- Witness for C10: in the sample host object 2 has the chain 2, 1; with the
probe's window at object 1 the filter excludes object 2. -/
theorem C10_filterObject_spec_witness :
    nthAncestor sampleHost 2 2 = none ∧ 2 ≤ sampleHost.stack ∧
      filterObject sampleHost ⟨100, some 1, [], [], false⟩ 2 = some true := by
  have hw := C10_filterObject_spec sampleHost ⟨100, some 1, [], [], false⟩ 2 2
    (by decide) (by decide)
  refine ⟨by decide, by decide, ?_⟩
  obtain ⟨⟨b, hb, -, hiff⟩, -, -⟩ := hw
  rw [hb, (hiff rfl).mpr (Or.inr (Or.inr (Or.inr ⟨1, 0, rfl, by decide⟩)))]

/-- Counterexample to C11 as stated: with the listener marker at thread 7, a call
made from thread 7 for an object that lives on thread 8 is not ignored — the
object becomes valid and is reported; and a call made from thread 9 for an
object that lives on thread 7 is ignored. -/
theorem C11_calling_thread_counterexample :
    (Process.initial 100 (some 7) []).filterThread = workerHost.currentThread ∧
      (objectAdded workerHost (Process.initial 100 (some 7) []) 1 false).s_instance
        = some ⟨100, none, [1], [], false⟩ ∧
      (objectAdded workerHost (Process.initial 100 (some 7) []) 1 false).emitted
        = addedNotifications 1 ∧
      (Process.initial 100 (some 7) []).filterThread ≠ otherCallerHost.currentThread ∧
      objectAdded otherCallerHost (Process.initial 100 (some 7) []) 1 false
        = Process.initial 100 (some 7) [] := by
  decide

/-- C11, amended: `objectAdded(obj, fromCtor)` is ignored — the process, with
`m_validObjects`, `m_queuedObjects`, the pre-bootstrap buffer and the trace of
notifications, stays as it is — whenever the thread of the object,
`obj->thread()`, equals the listener marker.  The suppression is decided by the
object's thread: the calling thread has no influence on `objectAdded` at all. -/
theorem C11_add_suppressed_by_object_thread (h : Host) (g : Process) (obj : QObject)
    (fromCtor : Bool) (hmarker : g.filterThread = h.thread obj) :
    objectAdded h g obj fromCtor = g ∧
      ∀ (g' : Process) (o : QObject) (c : Bool) (t : Option QThread),
        objectAdded { h with currentThread := t } g' o c = objectAdded h g' o c :=
  ⟨objectAdded_of_suppressed h g obj fromCtor hmarker,
    fun g' o c t => objectAdded_currentThread h t g' o c⟩

/-- Witness for C11: with the listener marker at thread 7, `objectAdded(1, true)`
for an object on thread 7 leaves a process with a tracked object as it is. -/
theorem C11_add_suppressed_by_object_thread_witness :
    (setFilterThread sampleTracked (some 7)).filterThread = sampleHost.thread 1 ∧
      objectAdded sampleHost (setFilterThread sampleTracked (some 7)) 1 true
        = setFilterThread sampleTracked (some 7) :=
  ⟨by decide,
    (C11_add_suppressed_by_object_thread sampleHost (setFilterThread sampleTracked (some 7)) 1
      true (by decide)).1⟩

/-- C12: in a live process without a probe, `objectAdded(obj, fromCtor)` appends
`obj` to the pre-bootstrap buffer and changes nothing else — for a call that the
listener marker does not suppress, which comes first in `objectAdded`.  The `Probe::instance()` call that constructs the probe
passes the buffered objects, in buffer order and once each, through
`objectAdded`; if that replay does not abort, the buffered objects that have a
thread and are not excluded are valid and reported, in buffer order and once
each, and the buffer is empty.  A later `Probe::instance()` call changes
nothing. -/
theorem C12_buffer_and_replay (h : Host) (g : Process) (obj : QObject) (fromCtor : Bool)
    (self : QObject) (halive : g.aborted = false) (hnone : g.s_instance = none) :
    (g.filterThread ≠ h.thread obj →
      objectAdded h g obj fromCtor =
        { g with s_addedBeforeProbeInsertion := g.s_addedBeforeProbeInsertion ++ [obj] }) ∧
    probeInstance h g true self =
      (if (run { g with s_instance := some (Probe.new self), filterThread := none }
            (g.s_addedBeforeProbeInsertion.map (fun o => (h, Op.add o false)))).aborted then
        run { g with s_instance := some (Probe.new self), filterThread := none }
          (g.s_addedBeforeProbeInsertion.map (fun o => (h, Op.add o false)))
      else
        { run { g with s_instance := some (Probe.new self), filterThread := none }
            (g.s_addedBeforeProbeInsertion.map (fun o => (h, Op.add o false))) with
          s_addedBeforeProbeInsertion := [] }) ∧
    ((probeInstance h g true self).aborted = false →
      probeInstance h g true self =
        { s_instance := some { Probe.new self with
            m_validObjects := replayed h self g.s_addedBeforeProbeInsertion }
          filterThread := none
          s_addedBeforeProbeInsertion := []
          emitted := g.emitted ++
            (replayed h self g.s_addedBeforeProbeInsertion).flatMap addedNotifications
          aborted := false }) ∧
    (∀ (h' : Host) (qApp : Bool) (self' : QObject),
      probeInstance h' (probeInstance h g true self) qApp self' = probeInstance h g true self) := by
  have hinst := probeInstance_constructs h g self halive hnone
  have hg1 : ({ g with s_instance := some (Probe.new self), filterThread := none } : Process)
      = ⟨some ⟨self, none, [], [], false⟩, none, g.s_addedBeforeProbeInsertion, g.emitted,
          false⟩ := by
    simp [Probe.new, halive]
  refine ⟨?_, ?_, ?_, ?_⟩
  · intro hlistener
    unfold objectAdded
    simp [halive, hnone, hlistener]
  · rw [hinst, run_map_add, hg1]
  · intro hab
    rw [hinst] at hab ⊢
    generalize hR : g.s_addedBeforeProbeInsertion.foldl (fun acc o => objectAdded h acc o false)
      ⟨some ⟨self, none, [], [], false⟩, none, g.s_addedBeforeProbeInsertion, g.emitted,
        false⟩ = R at hab ⊢
    have hRa : R.aborted = false := by
      cases hr : R.aborted with
      | false => rfl
      | true =>
        rw [hr] at hab
        simp only [if_true] at hab
        rw [hab] at hr
        cases hr
    have hspec := replay_spec h self g.s_addedBeforeProbeInsertion g.s_addedBeforeProbeInsertion
      [] g.emitted (by rw [hR]; exact hRa)
    rw [hR] at hspec
    rw [hRa, hspec]
    simp [Probe.new]
  · intro h' qApp self'
    have hcase : (probeInstance h g true self).aborted = true ∨
        ∃ p', (probeInstance h g true self).s_instance = some p' := by
      rw [hinst]
      obtain ⟨p', hp'⟩ := foldl_objectAdded_instance h false g.s_addedBeforeProbeInsertion
        ⟨some ⟨self, none, [], [], false⟩, none, g.s_addedBeforeProbeInsertion, g.emitted,
          false⟩ ⟨self, none, [], [], false⟩ rfl
      split
      · rename_i hc
        exact Or.inl hc
      · exact Or.inr ⟨p', hp'⟩
    rcases hcase with hc | ⟨p', hp'⟩
    · exact probeInstance_of_aborted h' _ qApp self' hc
    · exact probeInstance_of_initialized h' _ qApp self' p' hp'

/-- Witness for C12: with objects 1 and 2 (a child of 1) buffered, a further
`objectAdded(3, true)` is buffered, and `Probe::instance()` makes 1 and 2 valid,
reports them in this order and empties the buffer. -/
theorem C12_buffer_and_replay_witness :
    sampleBuffered.aborted = false ∧ sampleBuffered.s_instance = none ∧
      sampleBuffered.filterThread ≠ sampleHost.thread 3 ∧
      objectAdded sampleHost sampleBuffered 3 true =
        { sampleBuffered with s_addedBeforeProbeInsertion := [1, 2, 3] } ∧
      probeInstance sampleHost sampleBuffered true 100 =
        { s_instance := some ⟨100, none, [1, 2], [], false⟩
          filterThread := none
          s_addedBeforeProbeInsertion := []
          emitted := addedNotifications 1 ++ addedNotifications 2
          aborted := false } :=
  ⟨by decide, by decide, by decide,
    (C12_buffer_and_replay sampleHost sampleBuffered 3 true 100 (by decide) (by decide)).1
      (by decide),
    by
      have hw := (C12_buffer_and_replay sampleHost sampleBuffered 3 true 100 (by decide)
        (by decide)).2.2.1 (by decide)
      rw [hw]
      decide⟩

/-- Counterexample to C13 as stated: after the probe has been destroyed,
`objectAdded(1, true)` appends object 1 to the pre-bootstrap buffer, and
`objectRemoved(1)` takes it out again. -/
theorem C13_buffer_changes_after_teardown_counterexample :
    isInitialized (Probe.destroy sampleTracked) = false ∧
      (Probe.destroy sampleTracked).s_addedBeforeProbeInsertion = [] ∧
      (objectAdded sampleHost (Probe.destroy sampleTracked) 1 true).s_addedBeforeProbeInsertion
        = [1] ∧
      (objectRemoved sampleHost
        (objectAdded sampleHost (Probe.destroy sampleTracked) 1 true)
        1).s_addedBeforeProbeInsertion = [] := by
  decide

/-- C13, amended: once the probe has been destroyed `isInitialized()` is false.
In a live process without a probe, `connectionAdded` and `connectionRemoved`
change nothing; `objectAdded` and `objectRemoved` touch no probe and emit
nothing, but they do change the pre-bootstrap buffer: `objectAdded` appends the
object (unless the object's thread is the listener marker, when the call is
ignored) and `objectRemoved` erases every entry for the object. -/
theorem C13_hooks_after_teardown (h : Host) (g0 g : Process) (obj : QObject)
    (fromCtor : Bool) (sender receiver : Option QObject) (signal method : Option CString)
    (type : Nat) (halive : g.aborted = false) (htorn : g.s_instance = none) :
    (g0.aborted = false → isInitialized (Probe.destroy g0) = false) ∧
    connectionAdded h g sender signal receiver method type = g ∧
    connectionRemoved h g sender signal receiver method = g ∧
    (g.filterThread = h.thread obj → objectAdded h g obj fromCtor = g) ∧
    (g.filterThread ≠ h.thread obj →
      objectAdded h g obj fromCtor =
        { g with s_addedBeforeProbeInsertion := g.s_addedBeforeProbeInsertion ++ [obj] }) ∧
    objectRemoved h g obj =
      { g with s_addedBeforeProbeInsertion :=
          g.s_addedBeforeProbeInsertion.filter (fun x => x != obj) } := by
  refine ⟨?_, ?_, ?_, ?_, ?_, ?_⟩
  · intro h0
    simp [Probe.destroy, isInitialized, h0]
  · unfold connectionAdded
    simp [halive, htorn]
  · unfold connectionRemoved
    simp [halive, htorn]
  · exact objectAdded_of_suppressed h g obj fromCtor
  · intro hne
    unfold objectAdded
    simp [halive, htorn, hne]
  · unfold objectRemoved
    simp [halive, htorn]

/-- Witness for C13: the process left by destroying a probe that tracked object 1. -/
theorem C13_hooks_after_teardown_witness :
    (Probe.destroy sampleTracked).aborted = false ∧
      (Probe.destroy sampleTracked).s_instance = none ∧
      connectionAdded sampleHost (Probe.destroy sampleTracked) (some 1) (some 5) (some 2)
        (some 6) 0 = Probe.destroy sampleTracked ∧
      connectionRemoved sampleHost (Probe.destroy sampleTracked) (some 1) (some 5) (some 2)
        (some 6) = Probe.destroy sampleTracked :=
  ⟨by decide, by decide,
    (C13_hooks_after_teardown sampleHost sampleTracked (Probe.destroy sampleTracked) 1 true
      (some 1) (some 2) (some 5) (some 6) 0 (by decide) (by decide)).2.1,
    (C13_hooks_after_teardown sampleHost sampleTracked (Probe.destroy sampleTracked) 1 true
      (some 1) (some 2) (some 5) (some 6) 0 (by decide) (by decide)).2.2.1⟩

/-- C14: in a live process in which `filterObject` returns for the endpoints it
is asked about, `connectionAdded` forwards the edge to the connection model
exactly when the probe exists, sender and receiver are non-null, the calling
thread is not the listener marker and the filter excludes neither endpoint; in
every other case it leaves the process as it is. -/
theorem C14_connectionAdded_forwards_iff (h : Host) (g : Process)
    (sender receiver : Option QObject) (signal method : Option CString) (type : Nat)
    (halive : g.aborted = false)
    (hreturns : ∀ p s, g.s_instance = some p → sender = some s ∨ receiver = some s →
      filterObject h p s ≠ none) :
    ((∃ p s r, g.s_instance = some p ∧ sender = some s ∧ receiver = some r ∧
        g.filterThread ≠ h.currentThread ∧
        filterObject h p s = some false ∧ filterObject h p r = some false) →
      ∃ s r, sender = some s ∧ receiver = some r ∧
        connectionAdded h g sender signal receiver method type =
          { g with emitted := g.emitted ++ [.modelConnectionAdded s signal r method type] }) ∧
    (¬ (∃ p s r, g.s_instance = some p ∧ sender = some s ∧ receiver = some r ∧
        g.filterThread ≠ h.currentThread ∧
        filterObject h p s = some false ∧ filterObject h p r = some false) →
      connectionAdded h g sender signal receiver method type = g) := by
  constructor
  · rintro ⟨p, s, r, hp, rfl, rfl, ht, hfs, hfr⟩
    refine ⟨s, r, rfl, rfl, ?_⟩
    unfold connectionAdded
    simp [halive, hp, ht, hfs, hfr]
  · intro hno
    unfold connectionAdded
    simp only [halive, Bool.false_eq_true, if_false]
    split
    · rename_i p s r hp
      by_cases ht : g.filterThread = h.currentThread
      · simp [ht]
      · simp only [ht, if_false]
        cases hfs : filterObject h p s with
        | none => exact absurd hfs (hreturns p s hp (Or.inl rfl))
        | some bs =>
          cases bs with
          | true => rfl
          | false =>
            cases hfr : filterObject h p r with
            | none => exact absurd hfr (hreturns p r hp (Or.inr rfl))
            | some br =>
              cases br with
              | true => rfl
              | false => exact absurd ⟨p, s, r, hp, rfl, rfl, ht, hfs, hfr⟩ hno
    · rfl

/-- Witness for C14: with object 1 tracked, a connection from object 1 to object
2 made on thread 7 is forwarded. -/
theorem C14_connectionAdded_forwards_iff_witness :
    sampleTracked.aborted = false ∧
      (∀ p s, sampleTracked.s_instance = some p → some 1 = some s ∨ some 2 = some s →
        filterObject sampleHost p s ≠ none) ∧
      ∃ s r, some 1 = some s ∧ some 2 = some r ∧
        connectionAdded sampleHost sampleTracked (some 1) (some 5) (some 2) (some 6) 0 =
          { sampleTracked with
            emitted := sampleTracked.emitted ++ [.modelConnectionAdded s (some 5) r (some 6) 0] } := by
  have hret : ∀ p s, sampleTracked.s_instance = some p → some 1 = some s ∨ some 2 = some s →
      filterObject sampleHost p s ≠ none := by
    intro p s hp hs
    have hp' : p = ⟨100, none, [1], [], false⟩ := by
      have : sampleTracked.s_instance = some ⟨100, none, [1], [], false⟩ := by decide
      rw [this] at hp
      exact (Option.some.inj hp).symm
    subst hp'
    rcases hs with hs | hs <;>
      · cases Option.some.inj hs
        decide
  exact ⟨by decide, hret,
    (C14_connectionAdded_forwards_iff sampleHost sampleTracked (some 1) (some 2) (some 5) (some 6)
      0 (by decide) hret).1
      ⟨⟨100, none, [1], [], false⟩, 1, 2, by decide, rfl, rfl, by decide, by decide, by decide⟩⟩

/-- C15: in every reachable state of a live, initialized registry the queue
holds no object twice, so the assertion at the drain (`size() ==
toSet().size()`) holds, and an object that is not valid is not queued, so the
assertion at insertion (`!m_queuedObjects.contains(obj)`) holds whenever
`objectAdded` reaches it.  Called on the probe's thread,
`queuedObjectsFullyConstructed` runs `objectFullyConstructed` over the queue
from front to back — the order of insertion — once per queued object; unless a
completion step aborts, it then leaves the queue empty, having evicted the
queued objects that are now excluded and reported the others in queue order. -/
theorem C15_drain_in_queue_order (h : Host) (g : Process) (p : Probe)
    (hr : Reachable g) (halive : g.aborted = false) (hp : g.s_instance = some p)
    (hthread : h.currentThread = h.thread p.self) :
    (p.m_queuedObjects.Nodup ∧
      p.m_queuedObjects.length = p.m_queuedObjects.dedup.length) ∧
    (∀ obj, obj ∉ p.m_validObjects → obj ∉ p.m_queuedObjects) ∧
    ((p.m_queuedObjects.foldl (objectFullyConstructed h) g).aborted = true →
      queuedObjectsFullyConstructed h g
        = p.m_queuedObjects.foldl (objectFullyConstructed h) g) ∧
    ((p.m_queuedObjects.foldl (objectFullyConstructed h) g).aborted = false →
      (∃ p1, (p.m_queuedObjects.foldl (objectFullyConstructed h) g).s_instance = some p1 ∧
        queuedObjectsFullyConstructed h g =
          { p.m_queuedObjects.foldl (objectFullyConstructed h) g with
            s_instance := some { p1 with m_queuedObjects := [] } }) ∧
      queuedObjectsFullyConstructed h g =
        { g with
          s_instance := some { p with
            m_validObjects := drainValid h p p.m_queuedObjects
            m_queuedObjects := [] }
          emitted := g.emitted ++ drainEmitted h p p.m_queuedObjects }) := by
  have hpc := hr.consistent halive p hp
  have hspec := queuedObjectsFullyConstructed_spec h g p halive hp hthread hpc.queued_nodup
  refine ⟨⟨hpc.queued_nodup, by rw [hpc.queued_nodup.dedup]⟩,
    fun obj hv hq => hv (hpc.queued_valid obj hq), ?_, ?_⟩
  · intro hab
    rw [hspec, hab]
    rfl
  · intro hab
    obtain ⟨l1, l2, hl, hl2, heq⟩ :=
      foldl_objectFullyConstructed_spec h p.m_queuedObjects g p halive hp
    have hnil := hl2 hab
    subst hnil
    simp only [List.append_nil] at hl
    rw [← hl] at heq
    have hfinal : queuedObjectsFullyConstructed h g =
        { g with
          s_instance := some { p with
            m_validObjects := drainValid h p p.m_queuedObjects
            m_queuedObjects := [] }
          emitted := g.emitted ++ drainEmitted h p p.m_queuedObjects } := by
      rw [hspec, hab]
      rfl
    refine ⟨⟨{ p with m_validObjects := drainValid h p p.m_queuedObjects }, ?_, ?_⟩, hfinal⟩
    · rw [heq]
    · rw [hfinal, heq, hab]
      simp [halive]

/-- Witness for C15: with objects 1 and 2 queued in this order, the slot reports
object 1 and then object 2 and leaves the queue empty.  (The timer flag is
cleared by the timer firing, `queueTimerTimeout`, not by the slot.) -/
theorem C15_drain_in_queue_order_witness :
    Reachable (run (Process.initial 100 none [])
      [(sampleHost, .add 1 true), (sampleHost, .add 2 true)]) ∧
    (run (Process.initial 100 none [])
      [(sampleHost, .add 1 true), (sampleHost, .add 2 true)]).aborted = false ∧
    (run (Process.initial 100 none [])
      [(sampleHost, .add 1 true), (sampleHost, .add 2 true)]).s_instance
        = some ⟨100, none, [1, 2], [1, 2], true⟩ ∧
    sampleHost.currentThread = sampleHost.thread 100 ∧
    queuedObjectsFullyConstructed sampleHost
        (run (Process.initial 100 none [])
          [(sampleHost, .add 1 true), (sampleHost, .add 2 true)]) =
      { s_instance := some ⟨100, none, [1, 2], [], true⟩
        filterThread := none
        s_addedBeforeProbeInsertion := []
        emitted := addedNotifications 1 ++ addedNotifications 2
        aborted := false } :=
  ⟨⟨100, none, [], _, rfl⟩, by decide, by decide, by decide,
    by
      have hw := ((C15_drain_in_queue_order sampleHost
        (run (Process.initial 100 none [])
          [(sampleHost, .add 1 true), (sampleHost, .add 2 true)])
        ⟨100, none, [1, 2], [1, 2], true⟩ ⟨100, none, [], _, rfl⟩ (by decide) (by decide)
        (by decide)).2.2.2 (by decide)).2
      rw [hw]
      decide⟩

/-- C16: after every sequence of calls (`objectAdded`, `objectRemoved`, the queue
drain, and also child events, `setWindow` and changes of the listener marker)
made on a newly constructed probe, in whatever state the host is at each call,
the queue timer is active exactly when `m_queuedObjects` is non-empty, as long
as no assertion has aborted the process. -/
theorem C16_timer_active_iff_queue_nonempty (self : QObject) (filterThread : Option QThread)
    (buffer : List QObject) (calls : List (Host × Op)) (p : Probe)
    (halive : (run (Process.initial self filterThread buffer) calls).aborted = false)
    (hp : (run (Process.initial self filterThread buffer) calls).s_instance = some p) :
    p.m_queueTimerActive = true ↔ p.m_queuedObjects ≠ [] :=
  ((run_consistent calls _ (initial_consistent self filterThread buffer)) halive p hp).timer

/-- Witness for C16: after `add(1, false)` and `add(2, true)` the queue is `[2]` and
the timer is active; after the drain the queue is empty and the timer inactive. -/
theorem C16_timer_active_iff_queue_nonempty_witness :
    (run (Process.initial 100 none [])
      [(sampleHost, .add 1 false), (sampleHost, .add 2 true)]).aborted = false ∧
    (run (Process.initial 100 none [])
      [(sampleHost, .add 1 false), (sampleHost, .add 2 true)]).s_instance
        = some ⟨100, none, [1, 2], [2], true⟩ ∧
    (run (Process.initial 100 none [])
      [(sampleHost, .add 1 false), (sampleHost, .add 2 true), (sampleHost, .drain)]).s_instance
        = some ⟨100, none, [1, 2], [], false⟩ ∧
    (true = true ↔ [2] ≠ ([] : List QObject)) :=
  ⟨by decide, by decide, by decide,
    C16_timer_active_iff_queue_nonempty 100 none []
      [(sampleHost, .add 1 false), (sampleHost, .add 2 true)]
      ⟨100, none, [1, 2], [2], true⟩ (by decide) (by decide)⟩

/-- C17: reading with `operator>>` the stream that `operator<<` produced for a
list of touch points, into an empty list, gives back the same list — the same
length, and point by point the same value in every streamed field, so the
fields are read in the order and with the types in which they were written;
what follows on the stream is left unread.  Reading into a non-empty list
appends the decoded points after the existing ones, and a stored count that is
not positive decodes to no points. -/
theorem C17_touchPoints_roundtrip (points existing : List TouchPoint) (rest : QDataStream)
    (count : Int) :
    readTouchPoints (writeTouchPoints [] points ++ rest) [] = (rest, points) ∧
    (readTouchPoints (writeTouchPoints [] points ++ rest) []).2.length = points.length ∧
    readTouchPoints (writeTouchPoints [] points ++ rest) existing
      = (rest, existing ++ points) ∧
    (count ≤ 0 → readTouchPoints (.int32 count :: rest) existing = (rest, existing)) := by
  have key : ∀ ex : List TouchPoint,
      readTouchPoints (writeTouchPoints [] points ++ rest) ex = (rest, ex ++ points) := by
    intro ex
    unfold readTouchPoints writeTouchPoints
    rw [foldl_writeTouchPoint]
    simp only [List.nil_append, List.singleton_append, List.cons_append, readInt32,
      Int.toNat_ofNat]
    exact readTouchPointsLoop_flatMap points ex rest
  refine ⟨by simpa using key [], by rw [key []]; simp, key existing, ?_⟩
  intro hc
  unfold readTouchPoints
  simp only [readInt32]
  rw [Int.toNat_of_nonpos hc]
  rfl

/-- Witness for C17: a list of one touch point, read back after an existing
point; and a stream that starts with the count `-1`. -/
theorem C17_touchPoints_roundtrip_witness :
    (-1 : Int) ≤ 0 ∧
      readTouchPoints (writeTouchPoints [] [sampleTouchPoint]) [TouchPoint.default]
        = ([], [TouchPoint.default, sampleTouchPoint]) ∧
      readTouchPoints (.int32 (-1) :: [.real 5]) [sampleTouchPoint]
        = ([.real 5], [sampleTouchPoint]) :=
  ⟨by decide,
    by
      have hw := (C17_touchPoints_roundtrip [sampleTouchPoint] [TouchPoint.default] []
        (-1)).2.2.1
      simpa using hw,
    (C17_touchPoints_roundtrip [] [sampleTouchPoint] [.real 5] (-1)).2.2.2 (by decide)⟩

end Gammaray
